import Mathlib

/-!
Verification development for the zero-bubble pipeline-parallel scheduler and
activation-offload subsystem.  Python sources are shallowly embedded as
executable Lean definitions: machine/float arithmetic of the relevant inputs is
integer or rational, `assert` statements and Python exceptions become `Option`
failures (`none`), unbounded `while` loops take an explicit fuel argument
(exhausted fuel also yields `none`, so a `some` result certifies that the
modelled run terminated without violating any assertion).
-/

namespace ZeroBubble

/-! ## Scheduling graph model (scheduler/graph.py) -/

/-- Node kinds, from scheduler/graph.py FuncType. -/
inductive FuncType where
  | F | B | W | BW | S | T | IF | IB
  | SEND_FORWARD | RECV_FORWARD | SEND_BACKWARD | RECV_BACKWARD
  | REDUCE_INPUT_EMBD_FORWARD | BROADCAST_INPUT_EMBD_BACKWARD
  | BROADCAST_OUTPUT_EMBD_S | BROADCAST_OUTPUT_EMBD_T
  | REDUCE_OUTPUT_EMBD_S | REDUCE_OUTPUT_EMBD_T
  | POST_VALIDATION | SEND_POST_VALIDATION | RECV_POST_VALIDATION
deriving DecidableEq, Repr

/-- ScheduledNode, from scheduler/graph.py (the fields populated by
zbv.PipelineGraph.create_schedule; the remaining optional fields keep their
defaults there and are omitted). -/
structure ScheduledNode where
  type : FuncType
  stage : Nat
  microbatch : Nat
  chunk : Nat
  layer_group_idx : Nat
deriving DecidableEq, Repr

/-- GraphConfig, from scheduler/graph.py (the fields read by
zbv.PipelineGraph.create_schedule). -/
structure GraphConfig where
  max_chunks : Nat
  n_stages : Nat
  n_micro : Nat
deriving DecidableEq, Repr

/-! ## V-schedule construction (scheduler/zbv.py PipelineGraph) -/

/-- PipelineGraph constructor state, from zbv.py PipelineGraph.__init__.
Costs and memory deltas are integers (the representative inputs of the spec are
integral).  `max_mem` here is the resolved value: Python computes
`max_mem or f_mem * n_stage * 2`, see `PipelineGraph.make`. -/
structure PipelineGraph where
  n_stage : Nat
  n_micro : Nat
  f_cost : Int
  b_cost : Int
  w_cost : Int
  c_cost : Int
  f_mem : Int
  b_mem : Int
  w_mem : Int
  max_mem : Int
deriving DecidableEq, Repr

/-- Python `__init__`'s `self.max_mem = max_mem or f_mem * self.n_stage * 2`
(`None` — and, by Python truthiness, `0` — selects the default). -/
def PipelineGraph.make (n_stage n_micro : Nat) (f_cost b_cost w_cost c_cost : Int)
    (f_mem b_mem w_mem : Int) (max_mem : Option Int) : PipelineGraph :=
  { n_stage := n_stage, n_micro := n_micro,
    f_cost := f_cost, b_cost := b_cost, w_cost := w_cost, c_cost := c_cost,
    f_mem := f_mem, b_mem := b_mem, w_mem := w_mem,
    max_mem :=
      match max_mem with
      | some m => if m = 0 then f_mem * n_stage * 2 else m
      | none => f_mem * n_stage * 2 }

/-- Python `self.n_node = 6 * n_stage * n_micro`. -/
def PipelineGraph.n_node (g : PipelineGraph) : Nat := 6 * g.n_stage * g.n_micro

/-- Python `self.fbw_cost = [f_cost, b_cost, w_cost]` indexed by category. -/
def PipelineGraph.fbw_cost (g : PipelineGraph) (cat : Nat) : Int :=
  [g.f_cost, g.b_cost, g.w_cost].getD cat 0

/-- Python `self.fbw_mem = [f_mem, b_mem, w_mem]` indexed by category. -/
def PipelineGraph.fbw_mem (g : PipelineGraph) (cat : Nat) : Int :=
  [g.f_mem, g.b_mem, g.w_mem].getD cat 0

/-- Python `get_id(cat, chunk, stage, micro)` from zbv.py. -/
def PipelineGraph.get_id (g : PipelineGraph) (cat chunk stage micro : Nat) : Nat :=
  cat * 2 * g.n_stage * g.n_micro + chunk * g.n_stage * g.n_micro +
    stage * g.n_micro + micro

/-- The local mutable state of one `try_v_schedule` run (zbv.py lines 32-42).
`end_time` holds `-1` for nodes not yet placed; `pending_w` are deques
(pop at head, append at tail); `schedule` collects `(cat, chunk, micro)`
triples per stage.  The display-only `stage_str` is not modelled. -/
structure VState where
  count : List (List Nat)
  end_time : List Int
  cur_time : List Int
  mem : List Int
  stage_bubble : List Int
  pending_w : List (List (Nat × Nat × Nat))
  schedule : List (List (Nat × Nat × Nat))
deriving DecidableEq, Repr

/-- Initial `try_v_schedule` state. -/
def VState.init (g : PipelineGraph) : VState :=
  { count := List.replicate g.n_stage (List.replicate 6 0),
    end_time := List.replicate g.n_node (-1),
    cur_time := List.replicate g.n_stage 0,
    mem := List.replicate g.n_stage 0,
    stage_bubble := List.replicate g.n_stage 0,
    pending_w := List.replicate g.n_stage [],
    schedule := List.replicate g.n_stage [] }

/-- Python list read with a possibly negative index (`l[i]`, where a negative
`i` counts from the end; out of range raises, i.e. `none`). -/
def pyGet (l : List Int) (i : Int) : Option Int :=
  if 0 ≤ i then l.get? i.toNat
  else if (-i).toNat ≤ l.length then l.get? (l.length - (-i).toNat)
  else none

/-- Python `max(...)` of a nonempty Python list. -/
def pyListMax (l : List Int) : Option Int :=
  match l with
  | [] => none
  | x :: xs => some (xs.foldl max x)

/-- Python `get_max_stage_bubble(stage=-1)` from zbv.py (closure over the
current `stage_bubble` and the `approved_bubble` arguments); `stage = none`
models the default argument `-1`. -/
def get_max_stage_bubble (st : VState) (approved : List Int) (max_approved : Int)
    (stage : Option Nat) : Option Int := do
  let base := st.stage_bubble.foldl max 0
  match stage with
  | none => some base
  | some i => do
    let a ← approved.get? i
    some (max base (max_approved - a))

/-- Python `put(cat, chunk, stage, assert_cnt=True)` from zbv.py (lines
61-105).  Each Python `assert` is a `guard`; the early-return branch for
`assert_cnt=False` (dead in the live call sites) only advances `cur_time`. -/
def PipelineGraph.put (g : PipelineGraph) (st : VState) (cat chunk stage : Nat)
    (assert_cnt : Bool) : Option VState := do
  let cur ← st.cur_time.get? stage
  let tmp0 := cur + g.fbw_cost cat
  let no_bubble := tmp0
  let row ← st.count.get? stage
  let cnt ← row.get? (cat * 2 + chunk)
  if cnt ≥ g.n_micro then
    if !assert_cnt then
      return { st with cur_time := st.cur_time.set stage tmp0 }
    else none
  else do
    let m ← st.mem.get? stage
    guard (m + g.fbw_mem cat ≤ g.max_mem)
    if cat > 0 ∨ chunk > 0 then
      let last_id := cat * 2 + chunk - 1
      if cat < 2 then do
        let e ← st.end_time.get? (g.get_id (last_id / 2) (last_id % 2) stage cnt)
        guard (e ≥ 0)
      else do
        let e ← st.end_time.get? (g.get_id 1 chunk stage cnt)
        guard (e ≥ 0)
    let mut tmp := tmp0
    if chunk = 1 ∧ cat < 2 then
      if stage < g.n_stage - 1 then do
        let e ← st.end_time.get? (g.get_id cat chunk (stage + 1) cnt)
        guard (e ≥ 0)
        tmp := max tmp (e + g.c_cost + g.fbw_cost cat)
    if chunk = 0 ∧ cat < 2 then
      if stage > 0 then do
        let e ← st.end_time.get? (g.get_id cat chunk (stage - 1) cnt)
        guard (e ≥ 0)
        tmp := max tmp (e + g.c_cost + g.fbw_cost cat)
    let id := g.get_id cat chunk stage cnt
    let cnt0 ← row.get? 0
    let mut bubbles := st.stage_bubble
    if cnt0 > 0 then do
      let sb ← st.stage_bubble.get? stage
      bubbles := st.stage_bubble.set stage (sb + (tmp - no_bubble))
    let pw ← st.pending_w.get? stage
    let sched ← st.schedule.get? stage
    return { st with
      end_time := st.end_time.set id tmp,
      cur_time := st.cur_time.set stage tmp,
      mem := st.mem.set stage (m + g.fbw_mem cat),
      schedule := st.schedule.set stage (sched ++ [(cat, chunk, cnt)]),
      pending_w := if cat = 1 then st.pending_w.set stage (pw ++ [(2, chunk, cnt)])
                   else st.pending_w,
      count := st.count.set stage (row.set (cat * 2 + chunk) (cnt + 1)),
      stage_bubble := bubbles }

/-- Python `put_w(stage)` from zbv.py (lines 56-59): pop the oldest pending W
obligation and place it. -/
def PipelineGraph.put_w (g : PipelineGraph) (st : VState) (stage : Nat) : Option VState := do
  let pw ← st.pending_w.get? stage
  match pw with
  | [] => none
  | (_, chunk_, _) :: rest =>
    g.put { st with pending_w := st.pending_w.set stage rest } 2 chunk_ stage true

/-- Option-monad fold over a list (the Python `for` loops below). -/
def foldOver {α σ : Type} (f : σ → α → Option σ) (init : σ) (xs : List α) : Option σ :=
  xs.foldlM f init

/-- Warm-up phase 1 (zbv.py lines 121-122): each stage places its first
chunk-0 F. -/
def phase1 (g : PipelineGraph) (st : VState) : Option VState :=
  foldOver (fun s i => g.put s 0 0 i true) st (List.range g.n_stage)

/-- The inner `while` of warm-up phase 2 (zbv.py line 128-130). -/
def phase2While (g : PipelineGraph) (i : Nat) (tmp : Int) :
    Nat → VState → Option VState
  | 0, _ => none
  | fuel + 1, st => do
    let m ← st.mem.get? i
    let cur ← st.cur_time.get? i
    let row ← st.count.get? i
    let c0 ← row.get? 0
    if m + g.fbw_mem 0 * (2 + (i : Int) * 2) ≤ g.max_mem ∧
        cur + g.fbw_cost 0 ≤ tmp ∧ c0 < g.n_micro then do
      let st ← foldOver (fun s j => g.put s 0 0 j true) st (List.range (i + 1))
      phase2While g i tmp fuel st
    else
      some st

/-- Warm-up phase 2 (zbv.py lines 123-131): stages fill chunk-0 F nodes from
the last stage backwards, then place their first chunk-1 F. -/
def phase2 (g : PipelineGraph) (fuel : Nat) (st : VState) : Option VState :=
  foldOver
    (fun st i => do
      if i = g.n_stage - 1 then
        g.put st 0 1 i true
      else do
        let e ← st.end_time.get? (g.get_id 0 1 (i + 1) 0)
        let st ← phase2While g i (e + g.c_cost) fuel st
        g.put st 0 1 i true)
    st ((List.range g.n_stage).reverse)

/-- One body of the zig-zag `while` of phase 3 (zbv.py lines 140-143):
the inner reversed-stage `for` plus the chunk flip. -/
def phase3Inner (g : PipelineGraph) (i : Nat) :
    Nat → (VState × Nat) → Option (VState × Nat)
  | 0, _ => none
  | fuel + 1, (st, iter_chunk) => do
    let rowi ← st.count.get? i
    let ci0 ← rowi.get? 0
    let ci1 ← rowi.get? 1
    let rowp ← st.count.get? (i - 1)
    let cp0 ← rowp.get? 0
    let cp1 ← rowp.get? 1
    if ci0 + ci1 < cp0 + cp1 ∨ (ci1 ≤ cp1 ∧ cp1 < g.n_micro) then do
      let st ← foldOver
        (fun s j => do
          let rowj ← s.count.get? j
          let cj ← rowj.get? iter_chunk
          if cj < g.n_micro then g.put s 0 iter_chunk j true else some s)
        st (((List.range g.n_stage).filter (fun j => i ≤ j)).reverse)
      phase3Inner g i fuel (st, 1 - iter_chunk)
    else
      some (st, iter_chunk)

/-- Warm-up phase 3 (zbv.py lines 132-151): the zig-zag fill balancing
chunk-0 / chunk-1 F counts across adjacent stages.  `end_tmp` is set at stage
0 and (in the live code) never used afterwards, so it is not threaded. -/
def phase3 (g : PipelineGraph) (fuel : Nat) (st : VState) : Option VState := do
  let r ← foldOver
    (fun (acc : VState × Nat) i => do
      if i = 0 then
        some acc
      else
        phase3Inner g i fuel acc)
    (st, 0) (List.range g.n_stage)
  some r.1

/-- The memory-pressure `while` placing W nodes (zbv.py lines 157-160 for B,
lines 216-218 for F): while `mem[i] + fbw_mem[cat] > max_mem`, pop a pending W. -/
def memWhile (g : PipelineGraph) (i : Nat) (cat : Nat) :
    Nat → VState → Option VState
  | 0, _ => none
  | fuel + 1, st => do
    let m ← st.mem.get? i
    if m + g.fbw_mem cat > g.max_mem then do
      let pw ← st.pending_w.get? i
      guard (pw.length > 0)
      let st ← g.put_w st i
      memWhile g i cat fuel st
    else
      some st

/-- The bubble-filling `while` (zbv.py lines 186-188 and 224-226): while a
pending W fits before the dependency's arrival, place it. -/
def fillWhile (g : PipelineGraph) (i : Nat) (fa_id : Int) :
    Nat → VState → Option VState
  | 0, _ => none
  | fuel + 1, st => do
    let pw ← st.pending_w.get? i
    if pw.length > 0 ∧ 0 ≤ fa_id then do
      let e ← st.end_time.get? fa_id.toNat
      let cur ← st.cur_time.get? i
      if e + g.c_cost ≥ cur + g.fbw_cost 2 then do
        let st ← g.put_w st i
        fillWhile g i fa_id fuel st
      else
        some st
    else
      some st

/-- The guarded single bubble-fill `if` before placing a B or F node
(zbv.py lines 189-193 and 227-229).  Note the Python expression
`end_time[fa_id]` is evaluated even when `fa_id == -1`, where Python's
negative indexing reads the last entry — `pyGet` reproduces that. -/
def fillIf (g : PipelineGraph) (i : Nat) (fa_id : Int) (approved : List Int)
    (max_approved : Int) (doFill : Bool) (st : VState) : Option VState := do
  let pw ← st.pending_w.get? i
  if pw.length > 0 then do
    let e ← pyGet st.end_time fa_id
    let cur ← st.cur_time.get? i
    let gm ← get_max_stage_bubble st approved max_approved (some i)
    let sb ← st.stage_bubble.get? i
    if e + g.c_cost - cur > gm - sb then
      if doFill then g.put_w st i else some st
    else
      some st
  else
    some st

/-- Classification of stages into `b0_ranks`/`b1_ranks` and the combined
`b_ranks` order (zbv.py lines 161-179): reversed chunk-1 candidates first,
then chunk-0 candidates in stage order. -/
def bRanks (g : PipelineGraph) (st : VState) : Option (List (Nat × Nat)) := do
  let ranks ← foldOver
    (fun (acc : List Nat × List Nat) i => do
      let row ← st.count.get? i
      let c3 ← row.get? 3
      let c2 ← row.get? 2
      if c3 ≥ c2 then
        some (acc.1 ++ [i], acc.2)
      else if i = g.n_stage - 1 then
        some (acc.1, acc.2 ++ [i])
      else do
        let e ← st.end_time.get? (g.get_id 1 1 (i + 1) c3)
        if e ≥ 0 ∨ c2 ≥ g.n_micro then
          some (acc.1, acc.2 ++ [i])
        else
          some (acc.1 ++ [i], acc.2))
    ([], []) (List.range g.n_stage)
  some (ranks.2.reverse.map (fun i => (i, 1)) ++ ranks.1.map (fun i => (i, 0)))

/-- Placement of one B node from `b_ranks` (zbv.py lines 180-194). -/
def placeB (g : PipelineGraph) (fuel : Nat) (approved : List Int) (max_approved : Int)
    (fill_b : Bool) (st : VState) (entry : Nat × Nat) : Option VState := do
  let (i, chunk_) := entry
  let row ← st.count.get? i
  let c3 ← row.get? 3
  let c2 ← row.get? 2
  let fa_id : Int :=
    if chunk_ = 1 ∧ i < g.n_stage - 1 then (g.get_id 1 1 (i + 1) c3 : Nat)
    else if chunk_ = 0 ∧ i > 0 then (g.get_id 1 0 (i - 1) c2 : Nat)
    else -1
  let st ← fillWhile g i fa_id fuel st
  let st ← fillIf g i fa_id approved max_approved (chunk_ = 1 ∨ fill_b) st
  g.put st 1 chunk_ i true

/-- Selection and placement of one F node for stage `i` in the main loop
(zbv.py lines 196-230). -/
def placeF (g : PipelineGraph) (fuel : Nat) (approved : List Int) (max_approved : Int)
    (fill_f : Bool) (st : VState) (i : Nat) : Option VState := do
  let row ← st.count.get? i
  let c1 ← row.get? 1
  let c0 ← row.get? 0
  if c1 ≥ g.n_micro then
    some st
  else do
    let put_item : Option Nat ←
      if c1 ≥ c0 then
        some (some 0)
      else if i = g.n_stage - 1 then
        some (some 1)
      else do
        let e1 ← st.end_time.get? (g.get_id 0 1 (i + 1) c1)
        if e1 ≥ 0 then
          some (some 1)
        else if c0 < g.n_micro then
          if i = 0 then
            some (some 0)
          else do
            let e0 ← st.end_time.get? (g.get_id 0 0 (i - 1) c0)
            if e0 ≥ 0 then some (some 0) else some none
        else
          some none
    match put_item with
    | none => some st
    | some item => do
      let st ← memWhile g i 0 fuel st
      let fa_id : Int :=
        if item = 0 ∧ i > 0 then (g.get_id 0 0 (i - 1) c0 : Nat)
        else if item = 1 ∧ i < g.n_stage - 1 then (g.get_id 0 1 (i + 1) c1 : Nat)
        else -1
      let st ← fillWhile g i fa_id fuel st
      let st ← fillIf g i fa_id approved max_approved fill_f st
      g.put st 0 item i true

/-- One iteration of the main loop (zbv.py lines 155-230): memory-pressure W
placements, then the B placements, then the F placements. -/
def mainLoopBody (g : PipelineGraph) (fuel : Nat) (approved : List Int)
    (max_approved : Int) (fill_f fill_b : Bool) (st : VState) : Option VState := do
  let st ← foldOver (fun s i => memWhile g i 1 fuel s) st (List.range g.n_stage)
  let br ← bRanks g st
  let st ← foldOver (placeB g fuel approved max_approved fill_b) st br
  foldOver (placeF g fuel approved max_approved fill_f) st (List.range g.n_stage)

/-- Drain phase (zbv.py lines 232-234): place all remaining pending W
obligations per stage in deque order. -/
def drainWhile (g : PipelineGraph) (i : Nat) : Nat → VState → Option VState
  | 0, _ => none
  | fuel + 1, st => do
    let pw ← st.pending_w.get? i
    if pw.length > 0 then do
      let st ← g.put_w st i
      drainWhile g i fuel st
    else
      some st

/-- One full construction pass of `try_v_schedule` (everything before the
approved-bubble recursion). -/
def tryVBody (g : PipelineGraph) (fuel : Nat) (approved : List Int)
    (max_approved : Int) (fill_f fill_b : Bool) : Option VState := do
  let st := VState.init g
  let st ← phase1 g st
  let st ← phase2 g fuel st
  let st ← phase3 g fuel st
  let st ← foldOver
    (fun s _ => mainLoopBody g fuel approved max_approved fill_f fill_b s)
    st (List.range (2 * g.n_micro))
  foldOver (fun s i => drainWhile g i fuel s) st (List.range g.n_stage)

/-- Python `try_v_schedule(fill_f, fill_b, approved_bubble)` from zbv.py,
including the approved-bubble local-search recursion (zbv.py lines 243-249);
`rec_fuel` bounds the recursion depth, `fuel` every inner `while`. -/
def try_v_schedule (g : PipelineGraph) (fuel : Nat) (fill_f fill_b : Bool) :
    Nat → Option (List Int) →
      Option (List (List (Nat × Nat × Nat)) × List Int × Int)
  | 0, _ => none
  | rec_fuel + 1, approvedIn => do
    let approved := approvedIn.getD (List.replicate g.n_stage (-1))
    let max_approved ← pyListMax approved
    let st ← tryVBody g fuel approved max_approved fill_f fill_b
    let max_bubble ← get_max_stage_bubble st approved max_approved none
    if max_approved < 0 ∨ max_bubble < max_approved then do
      let r ← try_v_schedule g fuel fill_f fill_b rec_fuel (some st.stage_bubble)
      if r.2.2 < max_bubble then
        some r
      else
        some (st.schedule, st.end_time, max_bubble)
    else
      some (st.schedule, st.end_time, max_bubble)

/-- Python `create_schedule(config)` from zbv.py (lines 282-322): run the
search for all four `(fill_b, fill_f)` combinations, keep the strictly
smallest maximum bubble (first combination wins ties), and convert the
winning internal `(cat, chunk, micro)` triples to ScheduledNode records. -/
def PipelineGraph.create_schedule (g : PipelineGraph) (config : GraphConfig)
    (fuel rec_fuel : Nat) : Option (List (List ScheduledNode)) := do
  let best ← foldOver
    (fun (best : Option (List (List (Nat × Nat × Nat)) × List Int × Int))
        (fb : Bool × Bool) => do
      let r ← try_v_schedule g fuel fb.2 fb.1 rec_fuel none
      match best with
      | none => some (some r)
      | some b => if r.2.2 < b.2.2 then some (some r) else some (some b))
    none [(true, true), (true, false), (false, true), (false, false)]
  let (schedule, _, _) ← best
  foldOver
    (fun (acc : List (List ScheduledNode)) stage => do
      let row ← schedule.get? stage
      let nodes ← foldOver
        (fun (ns : List ScheduledNode) (t : Nat × Nat × Nat) => do
          let (cat_, chunk_, micro_) := t
          let chunk := if cat_ = 0 then chunk_ else config.max_chunks - 1 - chunk_
          if cat_ = 0 ∨ cat_ = 1 then
            guard (config.max_chunks = 2)
          else
            guard (cat_ = 2)
          let layer_group_idx := config.n_stages * chunk +
            (if chunk % 2 = 0 then stage else config.n_stages - 1 - stage)
          let ty ← [FuncType.F, FuncType.B, FuncType.W].get? cat_
          some (ns ++ [{ type := ty, chunk := chunk, stage := stage,
                         microbatch := micro_, layer_group_idx := layer_group_idx }]))
        [] row
      some (acc ++ [nodes]))
    [] (List.range g.n_stage)

/-! ## Activation offload (offload.py) -/

/-- An accelerator tensor handle, abstracted to the attributes offload.py
reads: storage identity (`storage().data_ptr()`), storage offset, shape,
stride, element type (an opaque code), and whether it is a
`torch.nn.parameter.Parameter`.  Numeric contents are not modelled — no claim
here is about values. -/
structure Tensor where
  storage : Nat
  storage_offset : Nat
  shape : List Nat
  stride : List Nat
  dtype : Nat
  is_param : Bool
deriving DecidableEq, Repr

/-- Python `tensor.numel()`. -/
def Tensor.numel (t : Tensor) : Nat := t.shape.prod

/-- Python `is_a_view(x, y)` from offload.py line 17: same storage identity,
same storage offset, same element count. -/
def is_a_view (x y : Tensor) : Bool :=
  x.storage == y.storage && x.storage_offset == y.storage_offset &&
    x.numel == y.numel

/-- Python `tensor_info(tensor) = (shape, layout, dtype, stride)`; the layout
of the tensors handled here is always `torch.strided`, encoded as `0`. -/
structure TInfo where
  shape : List Nat
  layout : Nat
  dtype : Nat
  stride : List Nat
deriving DecidableEq, Repr

/-- The `torch.strided` layout code. -/
def stridedLayout : Nat := 0

/-- Python `tensor_info(tensor)` from offload.py line 20. -/
def tensor_info (t : Tensor) : TInfo :=
  { shape := t.shape, layout := stridedLayout, dtype := t.dtype, stride := t.stride }

/-- The armed one-shot record of PartialRecompute (`_next_recompute_tensor`):
the expected tensor, its parents, the recompute function (opaque code) and an
optional RNG snapshot (opaque code). -/
structure RecomputeEntry where
  tensor : Tensor
  parents : List Tensor
  function : Nat
  rng_states : Option Nat
deriving DecidableEq, Repr

/-- The PartialRecompute singleton's state (offload.py class PartialRecompute):
just the one-shot `_next_recompute_tensor` slot. -/
structure PartialRecompute where
  next_recompute_tensor : Option RecomputeEntry
deriving DecidableEq, Repr

/-- The `(RecomputeSaveType, payload)` pair returned by
`PartialRecompute._save_tensor`: `PASS_THROUGH` carries the tensor itself,
`RECOMPUTE` carries `(parents, function, rng_states)`. -/
inductive RecomputePacked where
  | pass_through (t : Tensor)
  | recompute (parents : List Tensor) (function : Nat) (rng_states : Option Nat)
deriving DecidableEq, Repr

/-- Python `PartialRecompute._save_tensor(tensor)` from offload.py lines
63-68: consume the armed record if the saved tensor is a view over the armed
tensor, otherwise pass through with the armed record intact. -/
def PartialRecompute.save_tensor (pr : PartialRecompute) (tensor : Tensor) :
    PartialRecompute × RecomputePacked :=
  match pr.next_recompute_tensor with
  | some e =>
    if is_a_view tensor e.tensor then
      (⟨none⟩, .recompute e.parents e.function e.rng_states)
    else
      (pr, .pass_through tensor)
  | none => (pr, .pass_through tensor)

/-- Python `PartialRecompute._recompute_tensor(tensor, parents, function,
rng_states)` from offload.py lines 88-90:
`assert self._next_recompute_tensor is None`, then arm the record. -/
def PartialRecompute.recompute_tensor (pr : PartialRecompute) (tensor : Tensor)
    (parents : List Tensor) (function : Nat) (rng_states : Option Nat) :
    Option PartialRecompute :=
  match pr.next_recompute_tensor with
  | some _ => none
  | none => some ⟨some ⟨tensor, parents, function, rng_states⟩⟩

/-- Python `ActivationStore.__enter__` (offload.py lines 99-102): entering
while the class-level `_current_activation_store` marker names another store
asserts (nested offload unsupported); otherwise the marker is set to the
entered store.  The marker is `none` when the attribute is missing or `None`. -/
def activation_store_enter (current : Option Nat) (s : Nat) : Option (Option Nat) :=
  match current with
  | none => some (some s)
  | some _ => none

/-- Python `ActivationStore.__exit__` (offload.py lines 104-106): the marker
is reset to `None`. -/
def activation_store_exit (_current : Option Nat) : Option Nat :=
  none

/-- Python `ActivationStore.State` (offload.py lines 108-115). -/
inductive StoreState where
  | NEW | SAVING | OFFLOADED | OFFLOAD_RELEASED
  | RESUME_PREPARED | RESUMED | RESUME_RELEASED
deriving DecidableEq, Repr

/-- The `(SaveType, payload)` records returned by
`ActivationStore._save_tensor`.  `alias` carries
`(dtype, index, shape, stride, offset)` where `offset` is the storage-offset
difference from the stored tensor (always `0`, since `is_a_view` requires
equal offsets, but the subtraction is kept as in the source). -/
inductive SavePacked where
  | pass_through (t : Tensor)
  | offload (index : Nat)
  | recompute (parent_handles : List SavePacked) (function : Nat) (rng_states : Option Nat)
  | alias (dtype : Nat) (index : Nat) (shape stride : List Nat) (offset : Int)
deriving Repr

/-- A lazily created `as_strided` view descriptor over a continuous buffer
bin: `(dtype, bin, shape, stride, offset)`. -/
structure BinView where
  dtype : Nat
  bin : Nat
  shape : List Nat
  stride : List Nat
  offset : Nat
deriving DecidableEq, Repr

/-- ActivationStore state (offload.py `__init__`, lines 181-201).  CUDA
events and streams order asynchronous copies and have no effect on the
state machine, so they are not modelled; `_gpu_store` entries become `none`
once consumed by the resume hook.  The continuous CPU buffer maps each
element type (in first-seen order) to its list of bin sizes; `none` means not
yet allocated (`_continuous_cpu_buffer is None`). -/
structure ActivationStore where
  state : StoreState
  offloaded : Bool
  gpu_store : List (Option Tensor)
  offload_tensor_info : List TInfo
  continuous_cpu_buffer : Option (List (Nat × List Nat))
  index_offset : List (Option (Nat × Nat))
  index_cpu_buffer : List BinView
  continuous_gpu_buffer : List (Nat × List Nat)
  index_gpu_buffer : List Tensor
deriving DecidableEq, Repr

/-- A freshly constructed store (state `NEW`, nothing recorded). -/
def ActivationStore.new : ActivationStore :=
  { state := .NEW, offloaded := false, gpu_store := [], offload_tensor_info := [],
    continuous_cpu_buffer := none, index_offset := [], index_cpu_buffer := [],
    continuous_gpu_buffer := [], index_gpu_buffer := [] }

/-- Python `_change_state(from_state, to_state)` from offload.py lines
117-122; the `from` argument is a list to model both the single-state and the
state-set form of the precondition. -/
def ActivationStore.change_state (st : ActivationStore) (from_states : List StoreState)
    (to_state : StoreState) : Option ActivationStore :=
  if st.state ∈ from_states then some { st with state := to_state } else none

/-- Python `ActivationStore._save_tensor(tensor)` from offload.py lines
130-156.  The recursion over recompute parents is fuelled; one unit of fuel
per nesting level suffices because consuming the armed record disarms it.
Returns the updated PartialRecompute singleton, the updated store and the
packed record. -/
def ActivationStore.save_tensor :
    Nat → PartialRecompute → ActivationStore → Tensor →
      Option (PartialRecompute × ActivationStore × SavePacked)
  | 0, _, _, _ => none
  | fuel + 1, pr, st, tensor => do
    guard (!st.offloaded)
    let st ← st.change_state [.NEW, .SAVING] .SAVING
    if tensor.is_param then
      return (pr, st, .pass_through tensor)
    else
      let (pr, rec) := pr.save_tensor tensor
      match rec with
      | .recompute parents func rng => do
        let (pr, st, handles) ← parents.foldlM
          (fun (acc : PartialRecompute × ActivationStore × List SavePacked) x => do
            let (pr, st, hs) := acc
            let (pr, st, h) ← ActivationStore.save_tensor fuel pr st x
            pure (pr, st, hs ++ [h]))
          (pr, st, [])
        return (pr, st, .recompute handles func rng)
      | .pass_through _ =>
        match (st.gpu_store.enum.find? (fun p =>
            match p.2 with
            | some stored => is_a_view tensor stored
            | none => false)) with
        | some (index, some stored) =>
          return (pr, st, .alias tensor.dtype index tensor.shape tensor.stride
            ((tensor.storage_offset : Int) - (stored.storage_offset : Int)))
        | some (_, none) => none
        | none => do
          let st := { st with gpu_store := st.gpu_store ++ [some tensor] }
          let st ←
            if st.offload_tensor_info.length < st.gpu_store.length then
              pure { st with
                offload_tensor_info := st.offload_tensor_info ++ [tensor_info tensor] }
            else do
              guard (st.offload_tensor_info.get? (st.gpu_store.length - 1) =
                some (tensor_info tensor))
              pure st
          return (pr, st, .offload (st.gpu_store.length - 1))

/-! ### The packing algorithm (`_allocate_cpu_buffers`, offload.py 203-291) -/

/-- Python `size_of_tensor(shape, stride)` from offload.py lines 209-215: the
packed element count of a tensor — product of its non-unit dimensions
(asserting those dimensions are laid out contiguously when visited in
increasing stride order; Python's stable ascending `sorted(key=stride)` is
reproduced by `insertionSort` with the strict less-than relation), rounded up
to the 64-element alignment. -/
def size_of_tensor (shape stride : List Nat) : Option Nat := do
  let id_stride := ((shape.zip stride).filter (fun p => p.1 ≠ 1)).insertionSort
    (fun a b => a.2 < b.2)
  let size ← id_stride.foldlM
    (fun size p => if size = p.2 then some (size * p.1) else none) 1
  return (size + (64 - 1)) / 64 * 64

/-- Fuelled binary length; `bit_length_aux f n` is the bit length of `n`
whenever `n ≤ f`. -/
def bit_length_aux : Nat → Nat → Nat
  | 0, _ => 0
  | fuel + 1, n => if n = 0 then 0 else bit_length_aux fuel (n / 2) + 1

/-- Python's `int.bit_length` for naturals. -/
def bit_length (n : Nat) : Nat := bit_length_aux n n

/-- Python `nearest_power_of_2(x)` from offload.py lines 228-229
(`2**(x-1).bit_length()`, for the positive totals that occur here). -/
def nearest_power_of_2 (x : Nat) : Nat := 2 ^ bit_length (x - 1)

/-- The four candidate bin fill levels (`bins` in `allocate_offset`); field
`bi` corresponds to Python `bins[i]`. -/
structure Bins4 where
  b0 : Nat
  b1 : Nat
  b2 : Nat
  b3 : Nat
deriving DecidableEq, Repr

/-- One increment of the bin-level counter (offload.py lines 238-242):
`bins[-1] += bin_size[-1]` followed by the overflow cascade
`for i in range(max_split - 1, 0, -1)`. -/
def bins_step (bins size : Bins4) : Bins4 :=
  let b3 := bins.b3 + size.b3
  let p3 := if b3 > size.b3 then (0, bins.b2 + size.b2) else (b3, bins.b2)
  let p2 := if p3.2 > size.b2 then (0, bins.b1 + size.b1) else (p3.2, bins.b1)
  let p1 := if p2.2 > size.b1 then (0, bins.b0 + size.b0) else (p2.2, bins.b0)
  { b0 := p1.2, b1 := p1.1, b2 := p2.1, b3 := p3.1 }

/-- Python `solution_bins = [x for x in bins if x > 0]` (offload.py line 244). -/
def solution_bins (bins : Bins4) : List Nat :=
  [bins.b0, bins.b1, bins.b2, bins.b3].filter (fun x => 0 < x)

/-- The first-fit scan of offload.py lines 253-259: find the first bin with
room, returning its index and the updated `current_bin` levels. -/
def first_fit (caps current : List Nat) (size : Nat) : Option (Nat × List Nat) :=
  match caps, current with
  | cap :: caps', cur :: current' =>
    if cur + size ≤ cap then
      some (0, (cur + size) :: current')
    else
      match first_fit caps' current' size with
      | some (i, rest) => some (i + 1, cur :: rest)
      | none => none
  | _, _ => none

/-- The greedy placement loop of offload.py lines 248-262 over the
descending-size tensor list; `sol` entries are `(id, bin, offset)`
(`solution[id] = (i, current_bin[i] - size)`). -/
def place_all (caps : List Nat) :
    List (Nat × Nat) → List Nat → List (Nat × Nat × Nat) →
      Option (List Nat × List (Nat × Nat × Nat))
  | [], current, sol => some (current, sol)
  | (size, id) :: rest, current, sol =>
    match first_fit caps current size with
    | none => none
    | some (i, current') =>
      place_all caps rest current' (sol ++ [(id, i, (current'.getD i 0) - size)])

/-- The `while True` search of `allocate_offset` (offload.py lines 237-266),
fuelled.  A combination whose positive levels sum below the total is skipped;
a combination that does not fit all tensors is likewise skipped; on a fit the
two Python asserts run and `(current_bin, solution)` is returned. -/
def alloc_loop (tensors_sorted : List (Nat × Nat)) (total : Nat) (size : Bins4) :
    Nat → Bins4 → Option (List Nat × List (Nat × Nat × Nat))
  | 0, _ => none
  | fuel + 1, bins =>
    let bins := bins_step bins size
    let caps := solution_bins bins
    if caps.sum < total then
      alloc_loop tensors_sorted total size fuel bins
    else
      match place_all caps tensors_sorted (List.replicate caps.length 0) [] with
      | some (current, sol) =>
        if sol.length = tensors_sorted.length ∧ current.all (fun x => 0 < x) then
          some (current, sol)
        else
          none
      | none => alloc_loop tensors_sorted total size fuel bins

/-- Python `allocate_offset(tensors, max_split=4)` from offload.py lines
231-266, with the call-site default `max_split = 4`.  `tensors` are
`(size, id)` pairs; Python's `sorted(key=size, reverse=True)` is a stable
descending sort, which `insertionSort` with the strict greater-than relation
reproduces. -/
def allocate_offset (tensors : List (Nat × Nat)) (fuel : Nat) :
    Option (List Nat × List (Nat × Nat × Nat)) :=
  let total_size := (tensors.map Prod.fst).sum
  let aligned_size := nearest_power_of_2 total_size
  let size : Bins4 :=
    { b0 := aligned_size / 2 ^ 0, b1 := aligned_size / 2 ^ 1,
      b2 := aligned_size / 2 ^ 2, b3 := aligned_size / 2 ^ 3 }
  let sorted := tensors.insertionSort (fun a b => b.1 < a.1)
  alloc_loop sorted total_size size fuel ⟨0, 0, 0, 0⟩

/-- Group `(size, id)` pairs by dtype, dtypes kept in first-seen order and
each group's items in append order (the `defaultdict(list)` built in
offload.py lines 219-226). -/
def group_by_dtype (acc : List (Nat × List (Nat × Nat))) :
    List (Nat × Nat × Nat) → List (Nat × List (Nat × Nat))
  | [] => acc
  | (dtype, size, id) :: rest =>
    if (acc.find? (fun g => g.1 = dtype)).isSome then
      group_by_dtype
        (acc.map (fun g => if g.1 = dtype then (g.1, g.2 ++ [(size, id)]) else g)) rest
    else
      group_by_dtype (acc ++ [(dtype, [(size, id)])]) rest

/-- The `type_tensors` map of `_allocate_cpu_buffers` (offload.py lines
219-226): per recorded slot, assert the strided layout, compute the packed
size, and group `(size, id)` by dtype. -/
def type_tensors_of (infos : List TInfo) : Option (List (Nat × List (Nat × Nat))) := do
  let sized ← infos.enum.foldlM
    (fun (acc : List (Nat × Nat × Nat)) (p : Nat × TInfo) => do
      guard (p.2.layout = stridedLayout)
      let mysize ← size_of_tensor p.2.shape p.2.stride
      pure (acc ++ [(p.2.dtype, mysize, p.1)]))
    []
  pure (group_by_dtype [] sized)

/-- Python `_allocate_cpu_buffers` from offload.py lines 203-291: a no-op
once the CPU buffer exists; otherwise compute packed sizes, group by dtype,
run the packing per dtype, record `(bin, offset)` per slot index and the
per-slot CPU-side `as_strided` view descriptors.  Diagnostic prints are not
modelled. -/
def ActivationStore.allocate_cpu_buffers (st : ActivationStore) (fuel : Nat) :
    Option ActivationStore := do
  if st.continuous_cpu_buffer.isSome then
    return st
  else do
    let groups ← type_tensors_of st.offload_tensor_info
    let results ← groups.foldlM
      (fun (acc : List (Nat × List Nat × List (Nat × Nat × Nat))) g => do
        let (bins, sol) ← allocate_offset g.2 fuel
        pure (acc ++ [(g.1, bins, sol)]))
      []
    let index_offset := (List.range st.offload_tensor_info.length).map
      (fun id => (results.foldl
        (fun (acc : Option (Nat × Nat)) r =>
          match r.2.2.find? (fun e => e.1 = id) with
          | some e => some e.2
          | none => acc) none))
    let cpu_views ← st.offload_tensor_info.enum.foldlM
      (fun (acc : List BinView) (p : Nat × TInfo) => do
        let (bin, offset) ← (index_offset.getD p.1 none)
        pure (acc ++ [{ dtype := p.2.dtype, bin := bin, shape := p.2.shape,
                        stride := p.2.stride, offset := offset }]))
      []
    return { st with
      continuous_cpu_buffer := some (results.map (fun r => (r.1, r.2.1))),
      index_offset := index_offset,
      index_cpu_buffer := cpu_views }

/-- Python `offload(prev_event=None)` from offload.py lines 293-324: state
`SAVING → OFFLOADED`, allocate the packed CPU buffers on first use, issue the
device-to-host copies (asynchronous, value-level, not modelled) and mark
`_offloaded`. -/
def ActivationStore.offload (st : ActivationStore) (fuel : Nat) :
    Option ActivationStore := do
  let st ← st.change_state [.SAVING] .OFFLOADED
  guard (!st.offloaded)
  let st ← st.allocate_cpu_buffers fuel
  return { st with offloaded := true }

/-- Python `offload_release()` from offload.py lines 326-331: state
`OFFLOADED → OFFLOAD_RELEASED`, clear the GPU-resident tensor list. -/
def ActivationStore.offload_release (st : ActivationStore) : Option ActivationStore := do
  let st ← st.change_state [.OFFLOADED] .OFFLOAD_RELEASED
  guard st.offloaded
  return { st with gpu_store := [] }

/-- The storage identity of the mirrored GPU bin `bin` of the dtype group at
position `groupIdx` (a fresh `torch.empty_like` allocation per bin). -/
def gpuBinStorage (groupIdx bin : Nat) : Nat :=
  2000000 + groupIdx * 1000 + bin

/-- Python `prepare_resume()` from offload.py lines 333-347: state
`OFFLOAD_RELEASED → RESUME_PREPARED`, allocate GPU mirrors of every CPU bin,
re-stride each recorded slot's view into its mirror and repopulate
`_gpu_store` with those views. -/
def ActivationStore.prepare_resume (st : ActivationStore) : Option ActivationStore := do
  let st ← st.change_state [.OFFLOAD_RELEASED] .RESUME_PREPARED
  guard st.offloaded
  let cpu ← st.continuous_cpu_buffer
  let gpu := cpu
  guard (st.index_gpu_buffer = [])
  let views ← st.offload_tensor_info.enum.foldlM
    (fun (acc : List Tensor) (p : Nat × TInfo) => do
      let (bin, offset) ← st.index_offset.getD p.1 none
      let groupIdx ← (gpu.enum.find? (fun g => g.2.1 = p.2.dtype)).map Prod.fst
      pure (acc ++ [{ storage := gpuBinStorage groupIdx bin,
                      storage_offset := offset, shape := p.2.shape,
                      stride := p.2.stride, dtype := p.2.dtype,
                      is_param := false }]))
    []
  return { st with
    continuous_gpu_buffer := gpu,
    index_gpu_buffer := views,
    gpu_store := views.map some }

/-- Python `resume(prev_event=None)` from offload.py lines 350-367: state
`RESUME_PREPARED → RESUMED`, issue the host-to-device bin copies
(value-level, not modelled) and clear `_offloaded`. -/
def ActivationStore.resume (st : ActivationStore) : Option ActivationStore := do
  let st ← st.change_state [.RESUME_PREPARED] .RESUMED
  guard st.offloaded
  return { st with offloaded := false }

/-- The value returned by the resume hook: a tensor handle, Python `None`
(an already-consumed slot), an `as_strided` alias view, or a recomputed
value. -/
inductive ResumedValue where
  | val (t : Tensor)
  | missing
  | alias_view (dtype bin : Nat) (shape stride : List Nat) (offset : Int)
  | recomputed (function : Nat) (args : List ResumedValue) (rng_states : Option Nat)
deriving Repr

/-- Python `ActivationStore._resume_tensor(packed)` from offload.py lines
158-179: requires state `RESUMED`; `OFFLOAD` slots are single-use (nulled
after being returned). -/
def ActivationStore.resume_tensor :
    Nat → ActivationStore → SavePacked → Option (ActivationStore × ResumedValue)
  | 0, _, _ => none
  | fuel + 1, st, packed => do
    guard (!st.offloaded)
    let st ← st.change_state [.RESUMED] .RESUMED
    match packed with
    | .pass_through t => return (st, .val t)
    | .recompute handles func rng => do
      let (st, args) ← handles.foldlM
        (fun (acc : ActivationStore × List ResumedValue) h => do
          let (st, v) ← ActivationStore.resume_tensor fuel acc.1 h
          pure (st, acc.2 ++ [v]))
        (st, [])
      return (st, .recomputed func args rng)
    | .alias dtype index shape stride offset => do
      let (bin, o) ← st.index_offset.getD index none
      guard ((st.continuous_gpu_buffer.find? (fun g => g.1 = dtype)).isSome)
      return (st, .alias_view dtype bin shape stride ((o : Int) + offset))
    | .offload index => do
      let slot ← st.gpu_store.get? index
      let st := { st with gpu_store := st.gpu_store.set index none }
      match slot with
      | some t => return (st, .val t)
      | none => return (st, .missing)

/-- Python `resume_release()` from offload.py lines 369-376: state
`RESUMED → RESUME_RELEASED`; every slot must already be consumed; clear the
slot list, the GPU views and the GPU buffer map. -/
def ActivationStore.resume_release (st : ActivationStore) : Option ActivationStore := do
  let st ← st.change_state [.RESUMED] .RESUME_RELEASED
  guard (st.gpu_store.all (fun s => s = none))
  return { st with gpu_store := [], index_gpu_buffer := [], continuous_gpu_buffer := [] }

/-- Python `reset_state()` from offload.py lines 378-379. -/
def ActivationStore.reset_state (st : ActivationStore) : Option ActivationStore :=
  st.change_state [.RESUME_RELEASED] .NEW

/-! ## Argument validation and the weight-gradient store (zbpp_utils.py) -/

/-- A queued weight-gradient closure `(weight, pre_func, func)`: `weight` is
the parameter's identity and `action` an opaque code standing for the effect
of `func(*pre_func(async_op=False))`.  Executing a task appends its `action`
to the observed log. -/
structure GradTask where
  weight : Nat
  action : Nat
deriving DecidableEq, Repr

/-- Python `WeightGradStore.pop(chunk)` from zbpp_utils.py lines 143-150 on
one chunk's queue of units: raise on an empty queue, otherwise dequeue the
front unit and execute its closures in order.  Returns the remaining queue
and the log of executed actions. -/
def wgs_pop (queue : List (List GradTask)) : Option (List (List GradTask) × List Nat) :=
  match queue with
  | [] => none
  | unit :: rest => some (rest, unit.map GradTask.action)

/-- The transposing `while` loop of `WeightGradStore.clear` (zbpp_utils.py
lines 154-163): drain the chunk's queue, appending each unit's task at
position `i` to row `i`; on the first unit open one empty row per task,
afterwards assert every unit has exactly as many tasks as there are rows. -/
def clear_gather (rows : List (List GradTask)) :
    List (List GradTask) → Option (List (List GradTask))
  | [] => some rows
  | stored :: rest =>
    if rows.length = 0 then
      clear_gather (List.zipWith (fun r t => r ++ [t])
        (stored.map (fun _ => ([] : List GradTask))) stored) rest
    else if rows.length = stored.length then
      clear_gather (List.zipWith (fun r t => r ++ [t]) rows stored) rest
    else none

/-- The inner replay loop of `WeightGradStore.clear` (zbpp_utils.py lines
179-185) over one row: `param` latches the first task's weight and every
later task must carry the same weight (`assert param is weight`); each
executed action is logged in order. -/
def exec_row : Option Nat → List GradTask → Option (List Nat)
  | _, [] => some []
  | param, t :: rest =>
    let p := param.getD t.weight
    if p = t.weight then (exec_row (some p) rest).map (fun acts => t.action :: acts)
    else none

/-- The outer replay loop of `WeightGradStore.clear` (zbpp_utils.py lines
176-190): execute every row in order, concatenating the logs. -/
def exec_rows : List (List GradTask) → Option (List Nat)
  | [] => some []
  | row :: rest => do
    let a ← exec_row none row
    let b ← exec_rows rest
    pure (a ++ b)

/-- Python `WeightGradStore.clear(model, chunk)` from zbpp_utils.py lines
152-196 on one chunk's queue: gather the queued units into
position-indexed rows, then replay row by row.  Returns the log of executed
actions (the commented-out all-reduce plumbing in the source is dead code). -/
def wgs_clear (queue : List (List GradTask)) : Option (List Nat) := do
  let rows ← clear_gather [] queue
  exec_rows rows

/-- The position-grouped replay order: for each position `i` below `n`, the
actions of every queued unit's task at position `i`, units in enqueue
order. -/
def grouped_order (queue : List (List GradTask)) (n : Nat) : List Nat :=
  ((List.range n).map (fun i =>
    queue.filterMap (fun u => (u.get? i).map GradTask.action))).flatten

/-- Python `args.zero_bubble_max_pending_backward`: the argparse default is
the string `"auto"`, and validation replaces a non-`"auto"` value by
`int(value)`. -/
inductive StrOrInt where
  | str (s : String)
  | intval (v : Int)
deriving DecidableEq, Repr

/-- The argument fields read or written by `validate_arguments`
(zbpp_utils.py lines 50-87). -/
structure Args where
  untie_embeddings_and_output_weights : Bool
  defer_embedding_wgrad_compute : Bool
  zero_bubble_v_schedule : Bool
  enable_1f1b_v : Bool
  num_layers : Nat
  transformer_pipeline_model_parallel_size : Nat
  num_layers_per_virtual_pipeline_stage : Option Nat
  virtual_pipeline_model_parallel_size : Option Nat
  zero_bubble_v_schedule_mem_setup : String
  enable_zero_bubble : Bool
  pipeline_model_parallel_size : Nat
  enable_optimizer_post_validation : Bool
  use_distributed_optimizer : Bool
  overlap_param_gather : Bool
  overlap_grad_reduce : Bool
  fp16 : Bool
  zero_bubble_max_pending_backward : StrOrInt
  zero_bubble_adaptive_memory_limit_percentile : Int
deriving DecidableEq, Repr

/-- The first conditional block of `validate_arguments` (zbpp_utils.py lines
54-64): under a V schedule, layers must split evenly into an even per-stage
count, the virtual stage size must be unset, and the virtual fields are then
assigned.  A zero pipeline split makes the Python `%` raise
(`ZeroDivisionError`). -/
def validate_v_block (args : Args) : Option Args :=
  if args.zero_bubble_v_schedule ∨ args.enable_1f1b_v then
    if args.transformer_pipeline_model_parallel_size = 0 then none
    else if args.num_layers % args.transformer_pipeline_model_parallel_size ≠ 0 then none
    else if (args.num_layers / args.transformer_pipeline_model_parallel_size) % 2 ≠ 0 then
      none
    else if args.num_layers_per_virtual_pipeline_stage ≠ none then none
    else some { args with
      virtual_pipeline_model_parallel_size := some 2,
      num_layers_per_virtual_pipeline_stage :=
        some (args.num_layers / args.transformer_pipeline_model_parallel_size / 2) }
  else some args

/-- The second block (zbpp_utils.py lines 66-68): a V schedule implies zero
bubble and restricts the memory setup. -/
def validate_vsched_block (args : Args) : Option Args :=
  if args.zero_bubble_v_schedule then
    if args.zero_bubble_v_schedule_mem_setup = "min" ∨
        args.zero_bubble_v_schedule_mem_setup = "half" ∨
        args.zero_bubble_v_schedule_mem_setup = "zb" then
      some { args with enable_zero_bubble := true }
    else none
  else some args

/-- The third block (zbpp_utils.py lines 70-73): 1F1B-V needs pipeline
parallelism and excludes zero bubble and post validation. -/
def validate_1f1bv_block (args : Args) : Option Args :=
  if args.enable_1f1b_v then
    if args.pipeline_model_parallel_size > 1 then
      if args.enable_zero_bubble then none
      else if args.enable_optimizer_post_validation then none
      else some args
    else none
  else some args

/-- The fourth block (zbpp_utils.py lines 75-87): zero-bubble constraints,
the `"auto"` / integer handling of the pending-backward bound (a
non-numeric, non-`"auto"` string makes Python `int()` raise), and the
post-validation reset when zero bubble is off. -/
def validate_zb_block (args : Args) : Option Args :=
  if args.enable_zero_bubble then
    if args.use_distributed_optimizer ∧ args.overlap_param_gather then none
    else if args.use_distributed_optimizer ∧ args.overlap_grad_reduce then none
    else if ¬ (args.pipeline_model_parallel_size > 1) then none
    else if args.enable_optimizer_post_validation ∧ ¬ args.fp16 then none
    else
      match args.zero_bubble_max_pending_backward with
      | .str s =>
        if s = "auto" then
          if args.zero_bubble_adaptive_memory_limit_percentile > 0 then some args
          else none
        else
          match s.toInt? with
          | some v => some { args with zero_bubble_max_pending_backward := .intval v }
          | none => none
      | .intval v => some { args with zero_bubble_max_pending_backward := .intval v }
  else some { args with enable_optimizer_post_validation := false }

/-- Python `validate_arguments(args)` from zbpp_utils.py lines 50-87: the
two leading asserts followed by the four conditional blocks in order. -/
def validate_arguments (args : Args) : Option Args :=
  if args.untie_embeddings_and_output_weights then
    if args.defer_embedding_wgrad_compute = false then
      (validate_v_block args).bind (fun args =>
        (validate_vsched_block args).bind (fun args =>
          (validate_1f1bv_block args).bind validate_zb_block))
    else none
  else none

/-! ## Runtime scheduling (zerobubble/runtime.py) -/

/-- Python `SpQueue` state (runtime.py lines 75-95): a FIFO `ready_queue` of
sealed groups plus the in-progress `tmp_stack`. -/
structure SpQueue where
  ready_queue : List (List Nat)
  tmp_stack : List Nat
  num_seq_splits : Nat
deriving DecidableEq, Repr

/-- Python `SpQueue.__init__(num_seq_splits)`. -/
def SpQueue.init (num_seq_splits : Nat) : SpQueue :=
  { ready_queue := [], tmp_stack := [], num_seq_splits := num_seq_splits }

/-- Python `SpQueue.push(tensor)`: append to the in-progress stack and seal
it into the FIFO when it reaches `num_seq_splits` items. -/
def SpQueue.push (q : SpQueue) (tensor : Nat) : SpQueue :=
  let t := q.tmp_stack ++ [tensor]
  if t.length = q.num_seq_splits then
    { q with ready_queue := q.ready_queue ++ [t], tmp_stack := [] }
  else
    { q with tmp_stack := t }

/-- Python `SpQueue.pop()`: assert a ready group exists, pop the top (last
element) of the oldest group, and drop the group once empty. -/
def SpQueue.pop (q : SpQueue) : Option (Nat × SpQueue) :=
  match q.ready_queue with
  | [] => none
  | g :: rest => do
    let ret ← g.getLast?
    let g' := g.dropLast
    some (ret, { q with ready_queue := if g'.isEmpty then rest else g' :: rest })

/-- Push a whole list of items in order. -/
def SpQueue.pushAll (q : SpQueue) (xs : List Nat) : SpQueue :=
  xs.foldl SpQueue.push q

/-- Pop `n` times, collecting the returned items in order. -/
def SpQueue.popSeq : Nat → SpQueue → Option (List Nat × SpQueue)
  | 0, q => some ([], q)
  | n + 1, q =>
    q.pop.bind (fun p =>
      (SpQueue.popSeq n p.2).bind (fun r => some (p.1 :: r.1, r.2)))

/-- Split a list into consecutive chunks of `n` (a specification-side helper
for describing the groups formed by `push`). -/
def groupsOf (n : Nat) (xs : List Nat) : List (List Nat) :=
  if n = 0 then []
  else match xs with
    | [] => []
    | x :: rest => (x :: rest.take (n - 1)) :: groupsOf n (rest.drop (n - 1))
termination_by xs.length
decreasing_by simp only [List.length_drop, List.length_cons]; omega

/-- The parts of `TrainingIteration` configuration read by `schedule_w`
(runtime.py): `forward_only`, the micro-batch count, and the full schedule
list. -/
structure IterConfig where
  forward_only : Bool
  num_microbatches : Nat
  schedules : List ScheduledNode
deriving Repr

/-- The mutated iteration state read by `schedule_w`: the per-chunk
`w_clear_run` flags. -/
structure IterStates where
  w_clear_run : List Bool
deriving DecidableEq, Repr

/-- Python `non_w_pending = any([node.type != W for node in conf.schedules[it + 1:]])`
(runtime.py line 222). -/
def non_w_pending_at (conf : IterConfig) (it : Nat) : Bool :=
  (conf.schedules.drop (it + 1)).any (fun node => node.type ≠ FuncType.W)

/-- Python `TrainingIteration.schedule_w(scheduled_node, non_w_pending)` from
runtime.py lines 524-557, specialised to one chunk's weight-gradient queue
(`wgs` models `WeightGradStore.weight_grad_queue[chunk]` at the node's chunk
and seq split; the profiling and timer plumbing has no scheduling effect and
is omitted).  Returns the updated states, the updated queue and the log of
executed actions. -/
def schedule_w (conf : IterConfig) (multi_chunks : Bool) (states : IterStates)
    (wgs : List (List GradTask)) (scheduled_node : ScheduledNode)
    (non_w_pending : Bool) : Option (IterStates × List (List GradTask) × List Nat) := do
  if conf.forward_only then
    return (states, wgs, [])
  else
    let chunk := scheduled_node.chunk
    if (¬multi_chunks ∧ non_w_pending) ∨
        (multi_chunks ∧ non_w_pending ∧
          (scheduled_node.microbatch : Int) ≠ (conf.num_microbatches : Int) - 1) then do
      let (wgs, log) ← wgs_pop wgs
      return (states, wgs, log)
    else do
      let flag ← states.w_clear_run.get? chunk
      if ¬flag then do
        let log ← wgs_clear wgs
        return ({ states with w_clear_run := states.w_clear_run.set chunk true }, [], log)
      else
        return (states, wgs, [])

/-- One direction of the benchmarked round trip, tagged by the issuing rank's
position (runtime.py lines 1489-1496). -/
inductive CommOp where
  | recv_forward | send_forward | recv_backward | send_backward
deriving DecidableEq, Repr

/-- One iteration of the benchmark loop body (runtime.py lines 1489-1496) on
a rank with the given first/last-stage predicates. -/
def benchmark_round (is_first is_last : Bool) : List CommOp :=
  (if ¬is_first then [CommOp.recv_forward] else []) ++
  (if ¬is_last then [CommOp.send_forward, CommOp.recv_backward] else []) ++
  (if ¬is_first then [CommOp.send_backward] else [])

/-- The full benchmark trace: the loop body run 10 times (runtime.py line
1489, `for _ in range(10)`). -/
def benchmark_trace (is_first is_last : Bool) : List CommOp :=
  ((List.range 10).map (fun _ => benchmark_round is_first is_last)).flatten

/-- Python `t.elapsed() / (world_size - 1) / 2 / 10` (runtime.py lines
1498-1500), the left-associated division chain on the elapsed time. -/
def per_communication (elapsed : ℚ) (p : Nat) : ℚ :=
  elapsed / ((p : ℚ) - 1) / 2 / 10

/-- Python `torch.distributed.all_reduce(x, ReduceOp.MAX)` over the
per-rank values. -/
def all_reduce_max (values : List ℚ) : Option ℚ :=
  match values with
  | [] => none
  | x :: xs => some (xs.foldl max x)

/-- Python `bootstrap_and_profile_p2p_communication` (runtime.py lines
1412-1503), reduced to its effect on `ScheduleTimers.comm_time`: on the
first profiled iteration with more than one pipeline stage, every rank
derives `elapsed / (p - 1) / 2 / 10` from its benchmark timer and the
all-reduce keeps the maximum; otherwise `comm_time` is untouched (`none`
here means no assignment happens). -/
def bootstrap_comm_time (iter_counter : Nat) (p : Nat) (elapsed : List ℚ)
    (old : ℚ) : Option ℚ :=
  if iter_counter = 1 ∧ p > 1 then
    all_reduce_max (elapsed.map (fun e => per_communication e p))
  else
    some old

/-! ## Concrete instances used by the claim theorems -/

/-- Truth of a predicate under an `Option`: `none` (a failed run) never
satisfies it. -/
def OptionHolds {α : Type _} (P : α → Prop) : Option α → Prop
  | none => False
  | some a => P a

instance {α : Type _} (P : α → Prop) [DecidablePred P] :
    (o : Option α) → Decidable (OptionHolds P o)
  | none => isFalse (fun h => h)
  | some a => if h : P a then isTrue h else isFalse h

/-- The position-indexed rows that `clear_gather` builds from a queue of
equal-length units. -/
def rowsFor (queue : List (List GradTask)) (n : Nat) : List (List GradTask) :=
  (List.range n).map (fun i => queue.filterMap (fun u => u.get? i))

/-- The representative scheduling input of the spec: 4 stages, 8
micro-batches, F/B/W costs 1000, communication cost 10, memory deltas
`(2, -1, -1)` (zero-sum), default memory ceiling. -/
def zbv_graph : PipelineGraph :=
  PipelineGraph.make 4 8 1000 1000 1000 10 2 (-1) (-1) none

/-- The matching GraphConfig: two chunks, 4 stages, 8 micro-batches. -/
def zbv_config : GraphConfig := ⟨2, 4, 8⟩

/-- The number of nodes of one type and chunk in a stage's schedule row. -/
def cellCount (row : List ScheduledNode) (ty : FuncType) (c : Nat) : Nat :=
  row.countP (fun node => node.type == ty && node.chunk == c)

/-- A try_v_schedule state whose `(F, chunk 0)` cell of stage 0 is already
full. -/
def saturatedState : VState :=
  { VState.init zbv_graph with count := [[8, 0, 0, 0, 0, 0]] }

/-- A contiguous 64-element activation tensor. -/
def ct1 : Tensor :=
  { storage := 1, storage_offset := 0, shape := [64], stride := [1],
    dtype := 0, is_param := false }

/-- A contiguous 32x2 activation tensor on a different storage. -/
def ct2 : Tensor :=
  { storage := 2, storage_offset := 0, shape := [32, 2], stride := [2, 1],
    dtype := 0, is_param := false }

/-- The full legal ActivationStore cycle on two saved tensors:
save, save, offload, offload_release, prepare_resume, resume, the two resume
hooks, resume_release, reset_state. -/
def full_cycle : Option ActivationStore := do
  let pr : PartialRecompute := ⟨none⟩
  let st := ActivationStore.new
  let (pr, st, h1) ← ActivationStore.save_tensor 4 pr st ct1
  let (_pr, st, h2) ← ActivationStore.save_tensor 4 pr st ct2
  let st ← st.offload 20
  let st ← st.offload_release
  let st ← st.prepare_resume
  let st ← st.resume
  let (st, _) ← ActivationStore.resume_tensor 4 st h1
  let (st, _) ← ActivationStore.resume_tensor 4 st h2
  let st ← st.resume_release
  st.reset_state

/-- Thirty-one tensors of 64 elements each: `(size, id)` pairs whose total,
1984, is not a sum of at most 4 powers of two. -/
def tensors31 : List (Nat × Nat) := (List.range 31).map (fun i => (64, i))

/-- The recorded size of tensor `id` in a `(size, id)` list. -/
def sizeOfId (tensors : List (Nat × Nat)) (id : Nat) : Nat :=
  ((tensors.find? (fun t => t.2 = id)).map Prod.fst).getD 0

/-- An argument record that passes validation: untied embeddings, no
deferred wgrad, no V schedules, zero bubble on a 4-stage pipeline with the
`"auto"` pending-backward bound. -/
def base_args : Args :=
  { untie_embeddings_and_output_weights := true,
    defer_embedding_wgrad_compute := false,
    zero_bubble_v_schedule := false,
    enable_1f1b_v := false,
    num_layers := 8,
    transformer_pipeline_model_parallel_size := 4,
    num_layers_per_virtual_pipeline_stage := none,
    virtual_pipeline_model_parallel_size := none,
    zero_bubble_v_schedule_mem_setup := "zb",
    enable_zero_bubble := true,
    pipeline_model_parallel_size := 4,
    enable_optimizer_post_validation := false,
    use_distributed_optimizer := false,
    overlap_param_gather := false,
    overlap_grad_reduce := false,
    fp16 := false,
    zero_bubble_max_pending_backward := .str "auto",
    zero_bubble_adaptive_memory_limit_percentile := 85 }

/-- The bin fill levels stay at either zero or exactly their configured bin
size while the search runs. -/
def bins_inv (size bins : Bins4) : Prop :=
  (bins.b0 = 0 ∨ bins.b0 = size.b0) ∧ (bins.b1 = 0 ∨ bins.b1 = size.b1) ∧
  (bins.b2 = 0 ∨ bins.b2 = size.b2) ∧ (bins.b3 = 0 ∨ bins.b3 = size.b3)

/-! ## Theorems -/

/-- Python-style failure of an embedded computation is the `Option` failure. -/
theorem option_failure_eq_none {α : Type _} : (failure : Option α) = none := rfl

set_option maxRecDepth 100000 in
/-- Claim C1: at the representative input (4 stages, 8 micro-batches, costs
1000/1000/1000, communication cost 10, two chunks), `create_schedule` yields
per stage exactly `n_micro = 8` nodes of each of F, B, W for each chunk
(`6 * 8` nodes per stage), and `put` fails on any `(stage, category, chunk)`
cell that already holds `n_micro` placements. -/
theorem zbv_create_schedule_counts :
    OptionHolds (fun order => order.length = 4 ∧ ∀ row ∈ order, row.length = 6 * 8 ∧
        ∀ ty ∈ [FuncType.F, FuncType.B, FuncType.W], ∀ c ∈ [0, 1], cellCount row ty c = 8)
      (zbv_graph.create_schedule zbv_config 24 4) ∧
    (∀ (g : PipelineGraph) (st : VState) (cat chunk stage : Nat) (row : List Nat)
        (cnt : Nat),
        st.count.get? stage = some row → row.get? (cat * 2 + chunk) = some cnt →
        g.n_micro ≤ cnt → g.put st cat chunk stage true = none) := by
  constructor
  · decide
  · intro g st cat chunk stage row cnt hrow hcnt hge
    simp only [List.get?_eq_getElem?] at hrow hcnt
    unfold PipelineGraph.put
    simp only [bind, Option.bind, List.get?_eq_getElem?]
    cases hcur : st.cur_time[stage]? with
    | none => rfl
    | some v => simp [hrow, hcnt, hge]

/-- Witness for C1's `put`-saturation clause: a state whose `(F, chunk 0)`
cell of stage 0 already holds 8 placements rejects a ninth. -/
theorem zbv_create_schedule_counts_witness :
    zbv_graph.put saturatedState 0 0 0 true = none :=
  zbv_create_schedule_counts.2 zbv_graph saturatedState 0 0 0 [8, 0, 0, 0, 0, 0] 8
    (by decide) (by decide) (by decide)

/-- Claim C8: arming the recompute hook while a request is armed fails;
arming from the empty slot succeeds; a save of a view over the armed tensor
consumes the record into a RECOMPUTE result; a save of a non-view passes
through and leaves the record armed. -/
theorem recompute_hook_single_slot :
    (∀ (pr : PartialRecompute) (e : RecomputeEntry) (t : Tensor)
        (parents : List Tensor) (f : Nat) (rng : Option Nat),
        pr.next_recompute_tensor = some e →
        pr.recompute_tensor t parents f rng = none) ∧
    (∀ (t : Tensor) (parents : List Tensor) (f : Nat) (rng : Option Nat),
        PartialRecompute.recompute_tensor ⟨none⟩ t parents f rng =
          some ⟨some ⟨t, parents, f, rng⟩⟩) ∧
    (∀ (pr : PartialRecompute) (e : RecomputeEntry) (t : Tensor),
        pr.next_recompute_tensor = some e → is_a_view t e.tensor = true →
        pr.save_tensor t = (⟨none⟩, .recompute e.parents e.function e.rng_states)) ∧
    (∀ (pr : PartialRecompute) (e : RecomputeEntry) (t : Tensor),
        pr.next_recompute_tensor = some e → is_a_view t e.tensor = false →
        pr.save_tensor t = (pr, .pass_through t)) := by
  refine ⟨?_, ?_, ?_, ?_⟩
  · intro pr e t parents f rng h
    simp [PartialRecompute.recompute_tensor, h]
  · intro t parents f rng
    simp [PartialRecompute.recompute_tensor]
  · intro pr e t h hview
    simp [PartialRecompute.save_tensor, h, hview]
  · intro pr e t h hview
    simp [PartialRecompute.save_tensor, h, hview]

/-- Witness for C8 at concrete tensors: with `ct1` armed, re-arming fails, a
saving `ct1` consumes the record, saving `ct2` passes through intact. -/
theorem recompute_hook_single_slot_witness :
    PartialRecompute.recompute_tensor ⟨some ⟨ct1, [], 5, none⟩⟩ ct2 [] 6 none = none ∧
    PartialRecompute.save_tensor ⟨some ⟨ct1, [], 5, none⟩⟩ ct1 =
      (⟨none⟩, .recompute [] 5 none) ∧
    PartialRecompute.save_tensor ⟨some ⟨ct1, [], 5, none⟩⟩ ct2 =
      (⟨some ⟨ct1, [], 5, none⟩⟩, .pass_through ct2) :=
  ⟨recompute_hook_single_slot.1 ⟨some ⟨ct1, [], 5, none⟩⟩ ⟨ct1, [], 5, none⟩ ct2 [] 6 none
      rfl,
   recompute_hook_single_slot.2.2.1 ⟨some ⟨ct1, [], 5, none⟩⟩ ⟨ct1, [], 5, none⟩ ct1
      rfl (by decide),
   recompute_hook_single_slot.2.2.2 ⟨some ⟨ct1, [], 5, none⟩⟩ ⟨ct1, [], 5, none⟩ ct2
      rfl (by decide)⟩

/-- Claim C10: entering an ActivationStore context while another store is
current fails the assertion; entering with no current store succeeds and
records the entered store; after an exit the marker is clear, so a
subsequent enter succeeds. -/
theorem activation_store_enter_exclusive :
    (∀ (cur s : Nat), activation_store_enter (some cur) s = none) ∧
    (∀ s : Nat, activation_store_enter none s = some (some s)) ∧
    (∀ (cur : Option Nat) (s : Nat),
        activation_store_enter (activation_store_exit cur) s = some (some s)) :=
  ⟨fun _ _ => rfl, fun _ => rfl, fun _ _ => rfl⟩

/-- Witness for C10 at concrete store identities. -/
theorem activation_store_enter_exclusive_witness :
    activation_store_enter (some 1) 2 = none ∧
    activation_store_enter (activation_store_exit (some 1)) 2 = some (some 2) :=
  ⟨activation_store_enter_exclusive.1 1 2,
   activation_store_enter_exclusive.2.2 (some 1) 2⟩

set_option maxRecDepth 10000 in
/-- Claim C2: every ActivationStore operation fails outside its expected
state set (save needs NEW or SAVING; offload needs SAVING; offload_release
needs OFFLOADED; prepare_resume needs OFFLOAD_RELEASED; resume needs
RESUME_PREPARED; the resume hook, and resume_release, need RESUMED;
reset_state needs RESUME_RELEASED); on a fresh store offload_release and
resume fail; the full legal cycle succeeds and ends in state NEW. -/
theorem activation_store_state_machine :
    (∀ (pr : PartialRecompute) (st : ActivationStore) (t : Tensor) (fuel : Nat),
        st.state ∉ [StoreState.NEW, StoreState.SAVING] →
        ActivationStore.save_tensor (fuel + 1) pr st t = none) ∧
    (∀ (st : ActivationStore) (fuel : Nat),
        st.state ≠ .SAVING → st.offload fuel = none) ∧
    (∀ st : ActivationStore, st.state ≠ .OFFLOADED → st.offload_release = none) ∧
    (∀ st : ActivationStore, st.state ≠ .OFFLOAD_RELEASED → st.prepare_resume = none) ∧
    (∀ st : ActivationStore, st.state ≠ .RESUME_PREPARED → st.resume = none) ∧
    (∀ (st : ActivationStore) (p : SavePacked) (fuel : Nat),
        st.state ≠ .RESUMED → ActivationStore.resume_tensor (fuel + 1) st p = none) ∧
    (∀ st : ActivationStore, st.state ≠ .RESUMED → st.resume_release = none) ∧
    (∀ st : ActivationStore, st.state ≠ .RESUME_RELEASED → st.reset_state = none) ∧
    ActivationStore.new.offload_release = none ∧
    ActivationStore.new.resume = none ∧
    full_cycle.map ActivationStore.state = some StoreState.NEW := by
  refine ⟨?_, ?_, ?_, ?_, ?_, ?_, ?_, ?_, ?_, ?_, ?_⟩
  · intro pr st t fuel h
    cases hoff : st.offloaded <;>
      simp [ActivationStore.save_tensor, ActivationStore.change_state, hoff, h]
  · intro st fuel h
    simp [ActivationStore.offload, ActivationStore.change_state, h]
  · intro st h
    simp [ActivationStore.offload_release, ActivationStore.change_state, h]
  · intro st h
    simp [ActivationStore.prepare_resume, ActivationStore.change_state, h]
  · intro st h
    simp [ActivationStore.resume, ActivationStore.change_state, h]
  · intro st p fuel h
    cases hoff : st.offloaded <;>
      simp [ActivationStore.resume_tensor, ActivationStore.change_state, hoff, h]
  · intro st h
    simp [ActivationStore.resume_release, ActivationStore.change_state, h]
  · intro st h
    simp [ActivationStore.reset_state, ActivationStore.change_state, h]
  · decide
  · decide
  · decide

/-- Witness for C2's wrong-state clauses at concrete stores. -/
theorem activation_store_state_machine_witness :
    ActivationStore.save_tensor 1 ⟨none⟩
      { ActivationStore.new with state := .OFFLOADED } ct1 = none ∧
    ActivationStore.offload { ActivationStore.new with state := .NEW } 1 = none ∧
    ActivationStore.offload_release { ActivationStore.new with state := .SAVING } = none ∧
    ActivationStore.prepare_resume { ActivationStore.new with state := .OFFLOADED } = none ∧
    ActivationStore.resume { ActivationStore.new with state := .OFFLOAD_RELEASED } = none ∧
    ActivationStore.resume_tensor 1 { ActivationStore.new with state := .RESUME_PREPARED }
      (.offload 0) = none ∧
    ActivationStore.resume_release { ActivationStore.new with state := .RESUME_PREPARED }
      = none ∧
    ActivationStore.reset_state { ActivationStore.new with state := .RESUMED } = none :=
  ⟨activation_store_state_machine.1 ⟨none⟩ _ ct1 0 (by decide),
   activation_store_state_machine.2.1 _ 1 (by decide),
   activation_store_state_machine.2.2.1 _ (by decide),
   activation_store_state_machine.2.2.2.1 _ (by decide),
   activation_store_state_machine.2.2.2.2.1 _ (by decide),
   activation_store_state_machine.2.2.2.2.2.1 _ (.offload 0) 0 (by decide),
   activation_store_state_machine.2.2.2.2.2.2.1 _ (by decide),
   activation_store_state_machine.2.2.2.2.2.2.2.1 _ (by decide)⟩

/-- The first validation block never changes the flag fields read by later
blocks. -/
theorem validate_v_block_flags (args a : Args) (h : validate_v_block args = some a) :
    a.zero_bubble_v_schedule = args.zero_bubble_v_schedule ∧
    a.enable_1f1b_v = args.enable_1f1b_v ∧
    a.enable_zero_bubble = args.enable_zero_bubble ∧
    a.pipeline_model_parallel_size = args.pipeline_model_parallel_size ∧
    a.enable_optimizer_post_validation = args.enable_optimizer_post_validation := by
  unfold validate_v_block at h
  repeat' split at h
  any_goals exact Option.noConfusion h
  all_goals (injection h with h; subst h; simp)

/-- The second validation block preserves the 1F1B-V flag, the pipeline
size and the post-validation flag, and only ever turns `enable_zero_bubble`
on (it sets it whenever the V schedule is requested). -/
theorem validate_vsched_block_flags (args a : Args)
    (h : validate_vsched_block args = some a) :
    a.enable_1f1b_v = args.enable_1f1b_v ∧
    a.pipeline_model_parallel_size = args.pipeline_model_parallel_size ∧
    a.enable_optimizer_post_validation = args.enable_optimizer_post_validation ∧
    (args.enable_zero_bubble = true → a.enable_zero_bubble = true) ∧
    (args.zero_bubble_v_schedule = true → a.enable_zero_bubble = true) := by
  unfold validate_vsched_block at h
  repeat' split at h
  any_goals exact Option.noConfusion h
  all_goals (injection h with h; subst h; simp_all)

/-- The 1F1B-V block fails whenever both 1F1B-V and zero bubble are on. -/
theorem validate_1f1bv_block_none (args : Args) (h1 : args.enable_1f1b_v = true)
    (hz : args.enable_zero_bubble = true) : validate_1f1bv_block args = none := by
  simp [validate_1f1bv_block, h1, hz]

/-- When the 1F1B-V block succeeds it returns its input unchanged. -/
theorem validate_1f1bv_block_id (args a : Args)
    (h : validate_1f1bv_block args = some a) : a = args := by
  unfold validate_1f1bv_block at h
  repeat' split at h
  any_goals exact Option.noConfusion h
  all_goals (injection h with h; exact h.symm)

/-- A V schedule with layers not divisible by the pipeline split fails the
first block (a zero split raises Python's division error). -/
theorem validate_v_block_not_div (args : Args) (hv : args.zero_bubble_v_schedule = true)
    (hnd : ¬ args.transformer_pipeline_model_parallel_size ∣ args.num_layers) :
    validate_v_block args = none := by
  by_cases h0 : args.transformer_pipeline_model_parallel_size = 0
  · simp [validate_v_block, hv, h0]
  · have hm : args.num_layers % args.transformer_pipeline_model_parallel_size ≠ 0 :=
      fun hm => hnd (Nat.dvd_of_mod_eq_zero hm)
    simp [validate_v_block, hv, h0, hm]

/-- The zero-bubble block fails whenever zero bubble is on without pipeline
parallelism. -/
theorem validate_zb_block_none (args : Args) (hz : args.enable_zero_bubble = true)
    (hp : ¬ args.pipeline_model_parallel_size > 1) : validate_zb_block args = none := by
  simp [validate_zb_block, hz, hp]

/-- Unconditional failure of the whole chain follows from failure of the
composed block pipeline. -/
theorem validate_arguments_none (args : Args)
    (h : (validate_v_block args).bind (fun a => (validate_vsched_block a).bind
      (fun a => (validate_1f1bv_block a).bind validate_zb_block)) = none) :
    validate_arguments args = none := by
  simp [validate_arguments, h]

/-- Claim C9: `validate_arguments` fails on each documented-invalid
combination — a V schedule whose layer count is not divisible by the
pipeline split; 1F1B-V together with zero bubble; and zero bubble on a
single-stage pipeline. -/
theorem validate_arguments_rejects :
    (∀ args : Args, args.zero_bubble_v_schedule = true →
        ¬ args.transformer_pipeline_model_parallel_size ∣ args.num_layers →
        validate_arguments args = none) ∧
    (∀ args : Args, args.enable_1f1b_v = true → args.enable_zero_bubble = true →
        validate_arguments args = none) ∧
    (∀ args : Args, args.enable_zero_bubble = true →
        args.pipeline_model_parallel_size = 1 → validate_arguments args = none) := by
  refine ⟨?_, ?_, ?_⟩
  · intro args hv hnd
    exact validate_arguments_none args
      (by rw [validate_v_block_not_div args hv hnd]; rfl)
  · intro args h1 hz
    refine validate_arguments_none args ?_
    cases hv : validate_v_block args with
    | none => rfl
    | some a1 =>
      obtain ⟨f1, f2, f3, f4, f5⟩ := validate_v_block_flags args a1 hv
      show (validate_vsched_block a1).bind _ = none
      cases hs : validate_vsched_block a1 with
      | none => rfl
      | some a2 =>
        obtain ⟨g1, g2, g3, g4, g5⟩ := validate_vsched_block_flags a1 a2 hs
        show (validate_1f1bv_block a2).bind validate_zb_block = none
        rw [validate_1f1bv_block_none a2 (by rw [g1, f2]; exact h1)
          (g4 (by rw [f3]; exact hz))]
        rfl
  · intro args hz hp
    refine validate_arguments_none args ?_
    cases hv : validate_v_block args with
    | none => rfl
    | some a1 =>
      obtain ⟨f1, f2, f3, f4, f5⟩ := validate_v_block_flags args a1 hv
      show (validate_vsched_block a1).bind _ = none
      cases hs : validate_vsched_block a1 with
      | none => rfl
      | some a2 =>
        obtain ⟨g1, g2, g3, g4, g5⟩ := validate_vsched_block_flags a1 a2 hs
        show (validate_1f1bv_block a2).bind validate_zb_block = none
        cases h13 : validate_1f1bv_block a2 with
        | none => rfl
        | some a3 =>
          have ha3 : a3 = a2 := validate_1f1bv_block_id a2 a3 h13
          show validate_zb_block a3 = none
          refine validate_zb_block_none a3 ?_ ?_
          · rw [ha3]; exact g4 (by rw [f3]; exact hz)
          · rw [ha3, g2, f4, hp]; omega
  
/-- Witness for C9 at three concrete argument records derived from a record
that otherwise passes validation. -/
theorem validate_arguments_rejects_witness :
    validate_arguments
      { base_args with zero_bubble_v_schedule := true, num_layers := 7 } = none ∧
    validate_arguments { base_args with enable_1f1b_v := true } = none ∧
    validate_arguments { base_args with pipeline_model_parallel_size := 1 } = none :=
  ⟨validate_arguments_rejects.1 _ rfl (by decide),
   validate_arguments_rejects.2.1 _ rfl rfl,
   validate_arguments_rejects.2.2 _ rfl rfl⟩

/-- Pushing three items into a group-of-3 queue with an empty in-progress
stack seals them as one group. -/
theorem pushAll_cons3 (rq : List (List Nat)) (a b c : Nat) (rest : List Nat) :
    SpQueue.pushAll ⟨rq, [], 3⟩ (a :: b :: c :: rest) =
      SpQueue.pushAll ⟨rq ++ [[a, b, c]], [], 3⟩ rest := by
  simp [SpQueue.pushAll, SpQueue.push]

/-- Unfolding `groupsOf 3` on a list with at least three elements. -/
theorem groupsOf_cons3 (a b c : Nat) (rest : List Nat) :
    groupsOf 3 (a :: b :: c :: rest) = [a, b, c] :: groupsOf 3 rest := by
  rw [groupsOf]
  simp

/-- Pushing `3 * k` items into a group-of-3 queue seals exactly the
consecutive triples. -/
theorem pushAll_groups (k : Nat) : ∀ (xs : List Nat) (rq : List (List Nat)),
    xs.length = 3 * k →
    SpQueue.pushAll ⟨rq, [], 3⟩ xs = ⟨rq ++ groupsOf 3 xs, [], 3⟩ := by
  induction k with
  | zero =>
    intro xs rq h
    have hnil : xs = [] := List.eq_nil_of_length_eq_zero (by omega)
    subst hnil
    rw [groupsOf]
    simp [SpQueue.pushAll]
  | succ k ih =>
    intro xs rq h
    match xs with
    | [] => exact absurd h (by simp)
    | [a] => exact absurd h (by simp; omega)
    | [a, b] => exact absurd h (by simp; omega)
    | a :: b :: c :: rest =>
      have hrest : rest.length = 3 * k := by
        simp only [List.length_cons] at h
        omega
      rw [pushAll_cons3, groupsOf_cons3, ih rest (rq ++ [[a, b, c]]) hrest]
      simp

/-- The triples formed from a `3 * k`-element list cover it exactly and are
all nonempty. -/
theorem groupsOf_props (k : Nat) : ∀ (xs : List Nat), xs.length = 3 * k →
    ((groupsOf 3 xs).map List.length).sum = 3 * k ∧
      ∀ g ∈ groupsOf 3 xs, g ≠ [] := by
  induction k with
  | zero =>
    intro xs h
    have hnil : xs = [] := List.eq_nil_of_length_eq_zero (by omega)
    subst hnil
    rw [groupsOf]
    simp
  | succ k ih =>
    intro xs h
    match xs with
    | [] => exact absurd h (by simp)
    | [a] => exact absurd h (by simp; omega)
    | [a, b] => exact absurd h (by simp; omega)
    | a :: b :: c :: rest =>
      have hrest : rest.length = 3 * k := by
        simp only [List.length_cons] at h
        omega
      obtain ⟨ih1, ih2⟩ := ih rest hrest
      rw [groupsOf_cons3]
      refine ⟨by simp [ih1]; omega, ?_⟩
      intro g hg
      rcases List.mem_cons.mp hg with rfl | hg
      · simp
      · exact ih2 g hg

/-- Popping as many times as the oldest group's size returns that group in
reverse and discards it. -/
theorem popSeq_group : ∀ (g : List Nat), g ≠ [] →
    ∀ (rest : List (List Nat)) (t : List Nat) (n : Nat),
    SpQueue.popSeq g.length ⟨g :: rest, t, n⟩ = some (g.reverse, ⟨rest, t, n⟩) := by
  intro g
  induction g using List.reverseRecOn with
  | nil => intro hne; exact absurd rfl hne
  | append_singleton ys x ih =>
    intro _ rest t n
    rcases eq_or_ne ys [] with rfl | hne'
    · simp [SpQueue.popSeq, SpQueue.pop]
    · have hlen : (ys ++ [x]).length = ys.length + 1 := by simp
      rw [hlen, SpQueue.popSeq]
      have hpop : SpQueue.pop ⟨(ys ++ [x]) :: rest, t, n⟩ =
          some (x, ⟨ys :: rest, t, n⟩) := by
        simp [SpQueue.pop, List.getLast?_concat, List.dropLast_concat,
          List.isEmpty_iff, hne']
      rw [hpop]
      simp only [Option.some_bind]
      rw [ih hne' rest t n]
      simp

/-- Splitting a pop sequence at an intermediate count. -/
theorem popSeq_add : ∀ (m n : Nat) (q : SpQueue),
    SpQueue.popSeq (m + n) q =
      (SpQueue.popSeq m q).bind (fun p =>
        (SpQueue.popSeq n p.2).bind (fun r => some (p.1 ++ r.1, r.2))) := by
  intro m
  induction m with
  | zero =>
    intro n q
    rw [Nat.zero_add]
    rw [SpQueue.popSeq]
    simp only [Option.some_bind]
    cases h : SpQueue.popSeq n q with
    | none => rfl
    | some p => simp
  | succ m ih =>
    intro n q
    have harith : m + 1 + n = (m + n) + 1 := by omega
    rw [harith, SpQueue.popSeq, SpQueue.popSeq]
    cases hp : q.pop with
    | none => rfl
    | some p =>
      simp only [Option.some_bind]
      rw [ih n p.2]
      cases hm : SpQueue.popSeq m p.2 with
      | none => rfl
      | some r =>
        simp only [Option.some_bind]
        cases hn : SpQueue.popSeq n r.2 with
        | none => rfl
        | some t => simp

/-- Popping the total size of all sealed groups drains the FIFO, returning
each group reversed, oldest group first. -/
theorem popSeq_groups : ∀ (groups : List (List Nat)), (∀ g ∈ groups, g ≠ []) →
    ∀ (t : List Nat) (n : Nat),
    SpQueue.popSeq ((groups.map List.length).sum) ⟨groups, t, n⟩ =
      some ((groups.map List.reverse).flatten, ⟨[], t, n⟩) := by
  intro groups
  induction groups with
  | nil =>
    intro _ t n
    simp [SpQueue.popSeq]
  | cons g gs ih =>
    intro hne t n
    simp only [List.map_cons, List.sum_cons]
    rw [popSeq_add g.length ((gs.map List.length).sum) ⟨g :: gs, t, n⟩]
    rw [popSeq_group g (hne g (by simp)) gs t n]
    simp only [Option.some_bind]
    rw [ih (fun x hx => hne x (by simp [hx])) t n]
    simp

/-- Claim C5: `pop` fails on an empty FIFO; `pop` returns the top (most
recently pushed item) of the oldest group and discards the group once
emptied; after pushing `3 * k` items with `num_seq_splits = 3`, exactly
`3 * k` pops succeed — returning each sealed triple in reverse, oldest
triple first — and the next pop fails. -/
theorem spqueue_spec :
    (∀ (t : List Nat) (n : Nat), SpQueue.pop ⟨[], t, n⟩ = none) ∧
    (∀ (g : List Nat) (rest : List (List Nat)) (t : List Nat) (n x : Nat),
        g.getLast? = some x →
        SpQueue.pop ⟨g :: rest, t, n⟩ =
          some (x, ⟨if g.dropLast.isEmpty then rest else g.dropLast :: rest, t, n⟩)) ∧
    (∀ (k : Nat) (xs : List Nat), xs.length = 3 * k →
        SpQueue.popSeq (3 * k) (SpQueue.pushAll (SpQueue.init 3) xs) =
          some (((groupsOf 3 xs).map List.reverse).flatten, ⟨[], [], 3⟩) ∧
        SpQueue.popSeq (3 * k + 1) (SpQueue.pushAll (SpQueue.init 3) xs) = none) := by
  refine ⟨?_, ?_, ?_⟩
  · intro t n
    rfl
  · intro g rest t n x h
    simp [SpQueue.pop, h]
  · intro k xs h
    have hpush : SpQueue.pushAll (SpQueue.init 3) xs = ⟨groupsOf 3 xs, [], 3⟩ :=
      by simpa [SpQueue.init] using pushAll_groups k xs [] h
    obtain ⟨hsum, hne⟩ := groupsOf_props k xs h
    have hdrain := popSeq_groups (groupsOf 3 xs) hne [] 3
    rw [hsum] at hdrain
    constructor
    · rw [hpush]
      exact hdrain
    · rw [hpush, popSeq_add (3 * k) 1, hdrain]
      simp [SpQueue.popSeq, SpQueue.pop]

/-- Witness for C5 with `k = 1`: the three pushed items pop in reverse order
and a fourth pop fails. -/
theorem spqueue_spec_witness :
    SpQueue.popSeq 3 (SpQueue.pushAll (SpQueue.init 3) [10, 20, 30]) =
      some ([30, 20, 10], ⟨[], [], 3⟩) ∧
    SpQueue.popSeq 4 (SpQueue.pushAll (SpQueue.init 3) [10, 20, 30]) = none := by
  have h := spqueue_spec.2.2 1 [10, 20, 30] (by decide)
  simpa [groupsOf] using h

/-- A left fold with `max` yields an element of the seeded list (or the
seed) that bounds the seed and every element. -/
theorem foldl_max_spec : ∀ (xs : List ℚ) (x : ℚ),
    (xs.foldl max x = x ∨ xs.foldl max x ∈ xs) ∧
    x ≤ xs.foldl max x ∧ ∀ e ∈ xs, e ≤ xs.foldl max x := by
  intro xs
  induction xs with
  | nil =>
    intro x
    exact ⟨Or.inl rfl, le_refl x, by simp⟩
  | cons y ys ih =>
    intro x
    simp only [List.foldl_cons]
    obtain ⟨h1, h2, h3⟩ := ih (max x y)
    refine ⟨?_, ?_, ?_⟩
    · rcases h1 with h | h
      · rcases max_choice x y with hm | hm
        · exact Or.inl (by rw [h, hm])
        · exact Or.inr (by rw [h, hm]; exact List.mem_cons_self y ys)
      · exact Or.inr (List.mem_cons_of_mem y h)
    · exact le_trans (le_max_left x y) h2
    · intro e he
      rcases List.mem_cons.mp he with rfl | he
      · exact le_trans (le_max_right x e) h2
      · exact h3 e he

/-- Claim C7: on the first profiled iteration with more than one pipeline
stage, the communication-cost seed is the maximum over all ranks of
`elapsed / (p - 1) / 2 / 10` (the all-reduce-MAX of the per-rank derived
values); outside that window `comm_time` is left untouched; and the
benchmark runs its round trip exactly 10 times. -/
theorem bootstrap_comm_time_spec :
    (∀ (p : Nat) (elapsed : List ℚ) (old ct : ℚ),
        bootstrap_comm_time 1 p elapsed old = some ct → p > 1 →
        ct ∈ elapsed.map (fun e => per_communication e p) ∧
          ∀ e ∈ elapsed.map (fun e => per_communication e p), e ≤ ct) ∧
    (∀ (iter p : Nat) (elapsed : List ℚ) (old : ℚ), ¬(iter = 1 ∧ p > 1) →
        bootstrap_comm_time iter p elapsed old = some old) ∧
    (∀ is_first is_last : Bool,
        (benchmark_trace is_first is_last).length =
          10 * (benchmark_round is_first is_last).length) ∧
    benchmark_round false false =
      [.recv_forward, .send_forward, .recv_backward, .send_backward] := by
  refine ⟨?_, ?_, ?_, rfl⟩
  · intro p elapsed old ct hct hp
    rw [bootstrap_comm_time, if_pos ⟨rfl, hp⟩] at hct
    cases helapsed : elapsed.map (fun e => per_communication e p) with
    | nil =>
      rw [helapsed] at hct
      simp [all_reduce_max] at hct
    | cons a as =>
      rw [helapsed] at hct
      simp only [all_reduce_max] at hct
      injection hct with hct
      subst hct
      obtain ⟨h1, h2, h3⟩ := foldl_max_spec as a
      constructor
      · rcases h1 with h | h
        · rw [h]; exact List.mem_cons_self a as
        · exact List.mem_cons_of_mem a h
      · intro e he
        rcases List.mem_cons.mp he with rfl | he
        · exact h2
        · exact h3 e he
  · intro iter p elapsed old h
    rw [bootstrap_comm_time, if_neg h]
  · intro is_first is_last
    cases is_first <;> cases is_last <;> rfl

/-- Witness for C7: with one rank reporting an elapsed time of 1 on a
2-stage pipeline, the seeded value 1/20 is the maximum of the derived
per-rank values. -/
theorem bootstrap_comm_time_spec_witness :
    (1 : ℚ)/20 ∈ [(1 : ℚ)].map (fun e => per_communication e 2) ∧
    ∀ e ∈ [(1 : ℚ)].map (fun e => per_communication e 2), e ≤ (1 : ℚ)/20 :=
  bootstrap_comm_time_spec.1 2 [1] 0 (1/20)
    (by norm_num [bootstrap_comm_time, all_reduce_max, per_communication])
    (by norm_num)

/-- Seeding the gather rows from the first unit yields one singleton row per
task. -/
theorem zipWith_seed (stored : List GradTask) :
    List.zipWith (fun r t => r ++ [t])
      (stored.map (fun _ => ([] : List GradTask))) stored =
      stored.map (fun t => [t]) := by
  induction stored with
  | nil => rfl
  | cons t rest ih =>
    simp only [List.map_cons, List.zipWith_cons_cons, List.nil_append, ih]

/-- The singleton rows of one unit are the position-indexed rows of the
one-unit queue. -/
theorem map_singleton_rowsFor (stored : List GradTask) :
    stored.map (fun t => [t]) = rowsFor [stored] stored.length := by
  apply List.ext_getElem
  · simp [rowsFor]
  · intro i h1 h2
    have hlt : i < stored.length := by simpa using h1
    simp [rowsFor, List.filterMap, List.get?_eq_getElem?, List.getElem?_eq_getElem hlt]

/-- Appending one unit task-by-task to the gathered rows extends the
position-indexed rows by that unit. -/
theorem zipWith_rowsFor (queue : List (List GradTask)) (stored : List GradTask)
    (n : Nat) (hlen : stored.length = n) :
    List.zipWith (fun r t => r ++ [t]) (rowsFor queue n) stored =
      rowsFor (queue ++ [stored]) n := by
  apply List.ext_getElem
  · simp [rowsFor, hlen]
  · intro i h1 h2
    have hi : i < n := by simpa [rowsFor, hlen] using h1
    simp only [List.getElem_zipWith, rowsFor, List.getElem_map, List.getElem_range,
      List.filterMap_append]
    congr 1
    simp [List.filterMap, List.get?_eq_getElem?, List.getElem?_eq_getElem (hlen ▸ hi)]

/-- The gather loop, started from the rows of an already-drained queue
prefix, transposes the remaining units on top. -/
theorem clear_gather_rowsFor (n : Nat) (hn : 0 < n) :
    ∀ (rest queue : List (List GradTask)), (∀ u ∈ rest, u.length = n) →
    clear_gather (rowsFor queue n) rest = some (rowsFor (queue ++ rest) n) := by
  intro rest
  induction rest with
  | nil =>
    intro queue h
    rw [clear_gather]
    simp
  | cons stored rest ih =>
    intro queue h
    have hu : stored.length = n := h stored (by simp)
    have hrowlen : (rowsFor queue n).length = n := by simp [rowsFor]
    rw [clear_gather, if_neg (by rw [hrowlen]; omega), if_pos (by rw [hrowlen, hu]),
      zipWith_rowsFor queue stored n hu]
    have hrec := ih (queue ++ [stored]) (fun u hu' => h u (by simp [hu']))
    simpa [List.append_assoc] using hrec

/-- A row whose tasks share one weight replays to its action list. -/
theorem exec_row_same_weight : ∀ (row : List GradTask) (w : Nat),
    (∀ t ∈ row, t.weight = w) →
    exec_row (some w) row = some (row.map GradTask.action) := by
  intro row
  induction row with
  | nil => intro w h; rfl
  | cons t rest ih =>
    intro w h
    have ht : t.weight = w := h t (by simp)
    have hrec := ih w (fun u hu => h u (by simp [hu]))
    simp [exec_row, ht, hrec]

/-- A row whose tasks pairwise agree on the weight replays to its action
list (the first task latches the parameter). -/
theorem exec_row_all (row : List GradTask)
    (h : ∀ t ∈ row, ∀ t' ∈ row, t.weight = t'.weight) :
    exec_row none row = some (row.map GradTask.action) := by
  cases row with
  | nil => rfl
  | cons t rest =>
    have hrec := exec_row_same_weight rest t.weight
      (fun u hu => h u (List.mem_cons_of_mem t hu) t (List.mem_cons_self t rest))
    simp [exec_row, hrec]

/-- Replaying all rows concatenates the per-row action lists in row order. -/
theorem exec_rows_map : ∀ (rows : List (List GradTask)),
    (∀ r ∈ rows, ∀ t ∈ r, ∀ t' ∈ r, t.weight = t'.weight) →
    exec_rows rows = some ((rows.map (fun r => r.map GradTask.action)).flatten) := by
  intro rows
  induction rows with
  | nil => intro h; rfl
  | cons r rest ih =>
    intro h
    have h1 := exec_row_all r (h r (by simp))
    have h2 := ih (fun r' hr' => h r' (by simp [hr']))
    simp [exec_rows, h1, h2]

/-- Gathering a queue of empty units leaves no rows. -/
theorem clear_gather_nil_units : ∀ (queue : List (List GradTask)),
    (∀ u ∈ queue, u = []) → clear_gather [] queue = some [] := by
  intro queue
  induction queue with
  | nil => intro h; rfl
  | cons u rest ih =>
    intro h
    have hu : u = [] := h u (by simp)
    subst hu
    have hrec := ih (fun x hx => h x (by simp [hx]))
    rw [clear_gather]
    simpa using hrec

/-- The position-grouped order equals the flattened action lists of the
position-indexed rows. -/
theorem grouped_order_eq (queue : List (List GradTask)) (n : Nat) :
    grouped_order queue n =
      ((rowsFor queue n).map (fun r => r.map GradTask.action)).flatten := by
  rw [grouped_order, rowsFor, List.map_map]
  congr 1
  apply List.map_congr_left
  intro i _
  simp [Function.comp, List.map_filterMap]

/-- Claim C4: for a chunk queue of equal-length units whose tasks agree on
the weight position-by-position across units, `clear` replays every queued
closure grouped by position-within-unit — all position-0 closures across
units in enqueue order, then all position-1 closures, and so on. -/
theorem wgs_clear_grouped (queue : List (List GradTask)) (n : Nat)
    (hlen : ∀ u ∈ queue, u.length = n)
    (hw : ∀ (i : Nat), ∀ u ∈ queue, ∀ v ∈ queue, ∀ t t' : GradTask,
        u.get? i = some t → v.get? i = some t' → t.weight = t'.weight) :
    wgs_clear queue = some (grouped_order queue n) := by
  cases queue with
  | nil =>
    simp [wgs_clear, clear_gather, exec_rows, grouped_order]
  | cons first rest =>
    by_cases hn : n = 0
    · subst hn
      have hall : ∀ u ∈ (first :: rest), u = [] :=
        fun u hu => List.eq_nil_of_length_eq_zero (hlen u hu)
      have hgather := clear_gather_nil_units (first :: rest) hall
      simp [wgs_clear, hgather, exec_rows, grouped_order]
    · have hfirst : first.length = n := hlen first (by simp)
      have hgather : clear_gather [] (first :: rest) =
          some (rowsFor (first :: rest) n) := by
        have hrec : clear_gather (rowsFor [first] n) rest =
            some (rowsFor ([first] ++ rest) n) :=
          clear_gather_rowsFor n (Nat.pos_of_ne_zero hn) rest [first]
            (fun u hu => hlen u (by simp [hu]))
        rw [clear_gather]
        simp only [List.length_nil, zipWith_seed, map_singleton_rowsFor, hfirst]
        simpa [List.singleton_append] using hrec
      have hrows : ∀ r ∈ rowsFor (first :: rest) n,
          ∀ t ∈ r, ∀ t' ∈ r, t.weight = t'.weight := by
        intro r hr t ht t' ht'
        rw [rowsFor] at hr
        obtain ⟨i, hi, rfl⟩ := List.mem_map.mp hr
        obtain ⟨u, hu, hut⟩ := List.mem_filterMap.mp ht
        obtain ⟨v, hv, hvt⟩ := List.mem_filterMap.mp ht'
        exact hw i u hu v hv t t' hut hvt
      simp only [wgs_clear, hgather, Option.bind_eq_bind, Option.some_bind]
      rw [exec_rows_map (rowsFor (first :: rest) n) hrows, grouped_order_eq]

/-- Witness for C4: two units for weights `[0, 1]` replay as
`0(unit1), 0(unit2), 1(unit1), 1(unit2)`. -/
theorem wgs_clear_grouped_witness :
    wgs_clear [[⟨0, 11⟩, ⟨1, 12⟩], [⟨0, 21⟩, ⟨1, 22⟩]] = some [11, 21, 12, 22] ∧
    grouped_order [[⟨0, 11⟩, ⟨1, 12⟩], [⟨0, 21⟩, ⟨1, 22⟩]] 2 = [11, 21, 12, 22] := by
  have h := wgs_clear_grouped [[⟨0, 11⟩, ⟨1, 12⟩], [⟨0, 21⟩, ⟨1, 22⟩]] 2
    (by intro u hu; fin_cases hu <;> rfl)
    (by
      intro i u hu v hv t t' hut hvt
      fin_cases hu <;> fin_cases hv <;> rcases i with _ | _ | i <;>
        simp_all [List.get?] <;> (subst hut; subst hvt; rfl))
  exact ⟨h.trans (by decide), by decide⟩

/-- Claim C6: when `run()` dispatches a W node (training mode), if other
non-W nodes remain pending — or, with multiple chunks, additionally this is
not the last micro-batch — exactly one queued weight-gradient unit for the
node's chunk is popped and executed; otherwise, if the chunk's
`w_clear_run` flag is still clear, the chunk's whole pending queue is
drained in enqueue order and the flag is set; with the flag already set,
nothing happens. -/
theorem schedule_w_dispatch :
    (∀ (conf : IterConfig) (multi : Bool) (states : IterStates)
        (node : ScheduledNode) (nwp : Bool) (unit : List GradTask)
        (rest : List (List GradTask)),
        conf.forward_only = false →
        ((¬multi = true ∧ nwp = true) ∨ (multi = true ∧ nwp = true ∧
          (node.microbatch : Int) ≠ (conf.num_microbatches : Int) - 1)) →
        schedule_w conf multi states (unit :: rest) node nwp =
          some (states, rest, unit.map GradTask.action)) ∧
    (∀ (conf : IterConfig) (multi : Bool) (states : IterStates)
        (wgs : List (List GradTask)) (node : ScheduledNode) (nwp : Bool)
        (log : List Nat),
        conf.forward_only = false →
        ¬((¬multi = true ∧ nwp = true) ∨ (multi = true ∧ nwp = true ∧
          (node.microbatch : Int) ≠ (conf.num_microbatches : Int) - 1)) →
        states.w_clear_run.get? node.chunk = some false →
        wgs_clear wgs = some log →
        schedule_w conf multi states wgs node nwp =
          some (⟨states.w_clear_run.set node.chunk true⟩, [], log)) ∧
    (∀ (conf : IterConfig) (multi : Bool) (states : IterStates)
        (wgs : List (List GradTask)) (node : ScheduledNode) (nwp : Bool),
        conf.forward_only = false →
        ¬((¬multi = true ∧ nwp = true) ∨ (multi = true ∧ nwp = true ∧
          (node.microbatch : Int) ≠ (conf.num_microbatches : Int) - 1)) →
        states.w_clear_run.get? node.chunk = some true →
        schedule_w conf multi states wgs node nwp = some (states, wgs, [])) := by
  refine ⟨?_, ?_, ?_⟩
  · intro conf multi states node nwp unit rest hfwd hcond
    simp only [schedule_w]
    rw [if_neg (by simp [hfwd]), if_pos hcond]
    simp [wgs_pop]
  · intro conf multi states wgs node nwp log hfwd hcond hq hclear
    simp only [schedule_w]
    rw [if_neg (by simp [hfwd]), if_neg hcond, hq]
    simp [hclear]
  · intro conf multi states wgs node nwp hfwd hcond hq
    simp only [schedule_w]
    rw [if_neg (by simp [hfwd]), if_neg hcond, hq]
    simp

/-- Witness for C6's three branches at a concrete W node (chunk 0,
micro-batch 0, 4 micro-batches, single chunk). -/
theorem schedule_w_dispatch_witness :
    schedule_w ⟨false, 4, []⟩ false ⟨[false]⟩ [[⟨5, 1⟩]] ⟨.W, 0, 0, 0, 0⟩ true =
      some (⟨[false]⟩, [], [1]) ∧
    schedule_w ⟨false, 4, []⟩ false ⟨[false]⟩ [[⟨5, 1⟩], [⟨5, 2⟩]] ⟨.W, 0, 0, 0, 0⟩ false =
      some (⟨[true]⟩, [], [1, 2]) ∧
    schedule_w ⟨false, 4, []⟩ false ⟨[true]⟩ [[⟨5, 1⟩]] ⟨.W, 0, 0, 0, 0⟩ false =
      some (⟨[true]⟩, [[⟨5, 1⟩]], []) :=
  ⟨schedule_w_dispatch.1 ⟨false, 4, []⟩ false ⟨[false]⟩ ⟨.W, 0, 0, 0, 0⟩ true
      [⟨5, 1⟩] [] rfl (by decide),
   schedule_w_dispatch.2.1 ⟨false, 4, []⟩ false ⟨[false]⟩ [[⟨5, 1⟩], [⟨5, 2⟩]]
      ⟨.W, 0, 0, 0, 0⟩ false [1, 2] rfl (by decide) rfl (by decide),
   schedule_w_dispatch.2.2 ⟨false, 4, []⟩ false ⟨[true]⟩ [[⟨5, 1⟩]]
      ⟨.W, 0, 0, 0, 0⟩ false rfl (by decide) rfl⟩

/-- No single power of two equals 1984. -/
theorem sum1_pow2_ne : ∀ k : Fin 11, 2 ^ (k : Nat) ≠ 1984 := by decide

/-- No sum of two powers of two equals 1984. -/
theorem sum2_pow2_ne : ∀ k1 k2 : Fin 11,
    2 ^ (k1 : Nat) + 2 ^ (k2 : Nat) ≠ 1984 := by decide

/-- No sum of three powers of two equals 1984. -/
theorem sum3_pow2_ne : ∀ k1 k2 k3 : Fin 11,
    2 ^ (k1 : Nat) + 2 ^ (k2 : Nat) + 2 ^ (k3 : Nat) ≠ 1984 := by decide

/-- No sum of four powers of two equals 1984. -/
theorem sum4_pow2_ne : ∀ k1 k2 k3 k4 : Fin 11,
    2 ^ (k1 : Nat) + 2 ^ (k2 : Nat) + 2 ^ (k3 : Nat) + 2 ^ (k4 : Nat) ≠ 1984 := by
  decide

/-- A power of two bounded by 1984 has exponent below 11. -/
theorem pow2_le_1984_exp : ∀ k : Nat, 2 ^ k ≤ 1984 → k < 11 := by
  intro k h
  by_contra hk
  push_neg at hk
  have hpow : 2 ^ 11 ≤ 2 ^ k := Nat.pow_le_pow_right (by norm_num) hk
  have : (2048 : Nat) ≤ 2 ^ k := by norm_num at hpow ⊢; exact hpow
  omega

/-- The total 1984 is not a sum of at most four powers of two. -/
theorem no_pow2_rep_1984 :
    ¬∃ l : List Nat, l.length ≤ 4 ∧ (∀ x ∈ l, ∃ k, x = 2 ^ k) ∧ l.sum = 1984 := by
  rintro ⟨l, hlen, hpow, hsum⟩
  have hbound : ∀ x ∈ l, x ≤ 1984 := fun x hx =>
    hsum ▸ List.single_le_sum (fun y _ => Nat.zero_le y) x hx
  rcases l with _ | ⟨a, _ | ⟨b, _ | ⟨c, _ | ⟨d, _ | ⟨e, rest⟩⟩⟩⟩⟩
  · simp at hsum
  · obtain ⟨k1, hk1⟩ := hpow a (by simp)
    have h1 : k1 < 11 := pow2_le_1984_exp k1 (hk1 ▸ hbound a (by simp))
    have hN : 2 ^ k1 ≠ 1984 := sum1_pow2_ne ⟨k1, h1⟩
    simp only [List.sum_cons, List.sum_nil, Nat.add_zero] at hsum
    rw [hk1] at hsum
    exact hN hsum
  · obtain ⟨k1, hk1⟩ := hpow a (by simp)
    obtain ⟨k2, hk2⟩ := hpow b (by simp)
    have h1 : k1 < 11 := pow2_le_1984_exp k1 (hk1 ▸ hbound a (by simp))
    have h2 : k2 < 11 := pow2_le_1984_exp k2 (hk2 ▸ hbound b (by simp))
    have hN : 2 ^ k1 + 2 ^ k2 ≠ 1984 := sum2_pow2_ne ⟨k1, h1⟩ ⟨k2, h2⟩
    simp only [List.sum_cons, List.sum_nil, Nat.add_zero] at hsum
    rw [hk1, hk2] at hsum
    exact hN (by omega)
  · obtain ⟨k1, hk1⟩ := hpow a (by simp)
    obtain ⟨k2, hk2⟩ := hpow b (by simp)
    obtain ⟨k3, hk3⟩ := hpow c (by simp)
    have h1 : k1 < 11 := pow2_le_1984_exp k1 (hk1 ▸ hbound a (by simp))
    have h2 : k2 < 11 := pow2_le_1984_exp k2 (hk2 ▸ hbound b (by simp))
    have h3 : k3 < 11 := pow2_le_1984_exp k3 (hk3 ▸ hbound c (by simp))
    have hN : 2 ^ k1 + 2 ^ k2 + 2 ^ k3 ≠ 1984 :=
      sum3_pow2_ne ⟨k1, h1⟩ ⟨k2, h2⟩ ⟨k3, h3⟩
    simp only [List.sum_cons, List.sum_nil, Nat.add_zero] at hsum
    rw [hk1, hk2, hk3] at hsum
    exact hN (by omega)
  · obtain ⟨k1, hk1⟩ := hpow a (by simp)
    obtain ⟨k2, hk2⟩ := hpow b (by simp)
    obtain ⟨k3, hk3⟩ := hpow c (by simp)
    obtain ⟨k4, hk4⟩ := hpow d (by simp)
    have h1 : k1 < 11 := pow2_le_1984_exp k1 (hk1 ▸ hbound a (by simp))
    have h2 : k2 < 11 := pow2_le_1984_exp k2 (hk2 ▸ hbound b (by simp))
    have h3 : k3 < 11 := pow2_le_1984_exp k3 (hk3 ▸ hbound c (by simp))
    have h4 : k4 < 11 := pow2_le_1984_exp k4 (hk4 ▸ hbound d (by simp))
    have hN : 2 ^ k1 + 2 ^ k2 + 2 ^ k3 + 2 ^ k4 ≠ 1984 :=
      sum4_pow2_ne ⟨k1, h1⟩ ⟨k2, h2⟩ ⟨k3, h3⟩ ⟨k4, h4⟩
    simp only [List.sum_cons, List.sum_nil, Nat.add_zero] at hsum
    rw [hk1, hk2, hk3, hk4] at hsum
    exact hN (by omega)
  · simp only [List.length_cons] at hlen
    omega

set_option maxRecDepth 100000 in
/-- Counterexample to C3 as stated: 31 tensors of 64 elements (one element
type) total 1984 packed elements; the packing returns a single bin whose
allocated capacity is the occupied span 1984 — which is not a sum of at
most 4 power-of-two values.  The power-of-two bin sizes only steer the
search; the allocation uses `current_bin`, the occupied spans. -/
theorem allocate_offset_pow2_counterexample :
    (tensors31.map Prod.fst).sum = 1984 ∧
    (allocate_offset tensors31 64).map Prod.fst = some [1984] ∧
    ¬∃ l : List Nat, l.length ≤ 4 ∧ (∀ x ∈ l, ∃ k, x = 2 ^ k) ∧ l.sum = 1984 :=
  ⟨by decide, by decide, no_pow2_rep_1984⟩

/-- The first-fit scan places into the first bin with room: the returned
index is in range, only that level grows (by exactly `size`, within the
cap), and the total level rises by `size`. -/
theorem first_fit_spec : ∀ (caps current : List Nat) (size i : Nat)
    (current' : List Nat), first_fit caps current size = some (i, current') →
    i < current.length ∧ i < caps.length ∧ current'.length = current.length ∧
    current'.getD i 0 = current.getD i 0 + size ∧
    (∀ j, j ≠ i → current'.getD j 0 = current.getD j 0) ∧
    current.getD i 0 + size ≤ caps.getD i 0 ∧
    current'.sum = current.sum + size := by
  intro caps
  induction caps with
  | nil => intro current size i current' h; exact Option.noConfusion h
  | cons cap caps' ih =>
    intro current size i current' h
    cases current with
    | nil => exact Option.noConfusion h
    | cons cur current'' =>
      rw [first_fit] at h
      by_cases hcond : cur + size ≤ cap
      · rw [if_pos hcond, Option.some.injEq, Prod.mk.injEq] at h
        obtain ⟨rfl, rfl⟩ := h
        refine ⟨by simp, by simp, by simp, by simp, ?_, by simpa using hcond,
          by simp; omega⟩
        intro j hj
        cases j with
        | zero => exact absurd rfl hj
        | succ j => simp
      · rw [if_neg hcond] at h
        cases hrec : first_fit caps' current'' size with
        | none => rw [hrec] at h; exact Option.noConfusion h
        | some r =>
          obtain ⟨i', rest⟩ := r
          rw [hrec, Option.some.injEq, Prod.mk.injEq] at h
          obtain ⟨rfl, rfl⟩ := h
          obtain ⟨a, b, c, d, e, f, g⟩ := ih current'' size i' rest hrec
          refine ⟨by simp; omega, by simp; omega, by simp [c], by simpa using d,
            ?_, by simpa using f, by simp [g]; omega⟩
          intro j hj
          cases j with
          | zero => simp
          | succ j => simpa using e j (by omega)

/-- The greedy placement loop: placements extend the solution in tensor
order; levels only grow, stay within the caps, keep 64-alignment, and sum
to the old total plus the placed sizes; each entry records its tensor's id,
an in-range bin and an aligned offset whose span fits under the final level
and the cap; and entries sharing a bin are laid out left to right without
overlap. -/
theorem place_all_spec : ∀ (caps : List Nat) (ts : List (Nat × Nat))
    (current : List Nat) (sol0 : List (Nat × Nat × Nat))
    (out : List Nat × List (Nat × Nat × Nat)),
    place_all caps ts current sol0 = some out →
    (∀ t ∈ ts, 64 ∣ t.1) → (∀ j, 64 ∣ current.getD j 0) →
    (∀ j, current.getD j 0 ≤ caps.getD j 0) →
    ∃ delta,
      out.2 = sol0 ++ delta ∧
      out.1.length = current.length ∧
      (∀ j, current.getD j 0 ≤ out.1.getD j 0) ∧
      (∀ j, out.1.getD j 0 ≤ caps.getD j 0) ∧
      (∀ j, 64 ∣ out.1.getD j 0) ∧
      out.1.sum = current.sum + (ts.map Prod.fst).sum ∧
      List.Forall₂ (fun (t : Nat × Nat) (e : Nat × Nat × Nat) =>
        e.1 = t.2 ∧ e.2.1 < caps.length ∧ 64 ∣ e.2.2 ∧
        current.getD e.2.1 0 ≤ e.2.2 ∧
        e.2.2 + t.1 ≤ out.1.getD e.2.1 0 ∧
        e.2.2 + t.1 ≤ caps.getD e.2.1 0) ts delta ∧
      List.Pairwise (fun (p q : (Nat × Nat) × (Nat × Nat × Nat)) =>
        p.2.2.1 = q.2.2.1 → p.2.2.2 + p.1.1 ≤ q.2.2.2) (ts.zip delta) := by
  intro caps ts
  induction ts with
  | nil =>
    intro current sol0 out h _ hdivcur hlecaps
    rw [place_all, Option.some.injEq] at h
    subst h
    exact ⟨[], by simp, rfl, fun j => le_refl _, hlecaps, hdivcur, by simp,
      List.Forall₂.nil, by simp⟩
  | cons t rest ih =>
    intro current sol0 out h hdiv hdivcur hlecaps
    obtain ⟨sz, id⟩ := t
    rw [place_all] at h
    cases hff : first_fit caps current sz with
    | none =>
      rw [hff] at h
      exact Option.noConfusion h
    | some r =>
      obtain ⟨i, currFit⟩ := r
      rw [hff] at h
      have h' : place_all caps rest currFit
          (sol0 ++ [(id, i, currFit.getD i 0 - sz)]) = some out := h
      obtain ⟨hi_lt, hi_caps, hlen, hgetD_i, hgetD_ne, hcap, hsum⟩ :=
        first_fit_spec caps current sz i currFit hff
      rw [hgetD_i, Nat.add_sub_cancel] at h'
      have hdivsz : 64 ∣ sz := hdiv (sz, id) (List.mem_cons_self _ _)
      have hdivFit : ∀ j, 64 ∣ currFit.getD j 0 := by
        intro j
        by_cases hj : j = i
        · subst hj; rw [hgetD_i]; exact Nat.dvd_add (hdivcur _) hdivsz
        · rw [hgetD_ne j hj]; exact hdivcur j
      have hleFit : ∀ j, currFit.getD j 0 ≤ caps.getD j 0 := by
        intro j
        by_cases hj : j = i
        · subst hj; rw [hgetD_i]; exact hcap
        · rw [hgetD_ne j hj]; exact hlecaps j
      have hmonoFit : ∀ j, current.getD j 0 ≤ currFit.getD j 0 := by
        intro j
        by_cases hj : j = i
        · subst hj; rw [hgetD_i]; omega
        · rw [hgetD_ne j hj]
      obtain ⟨delta', hsol, hlen', hmono', hcap', hdiv', hsum', hfa', hpw'⟩ :=
        ih currFit (sol0 ++ [(id, i, current.getD i 0)]) out h'
          (fun u hu => hdiv u (List.mem_cons_of_mem _ hu)) hdivFit hleFit
      refine ⟨(id, i, current.getD i 0) :: delta', ?_, ?_, ?_, hcap', hdiv',
        ?_, ?_, ?_⟩
      · rw [hsol]; simp
      · rw [hlen', hlen]
      · intro j; exact le_trans (hmonoFit j) (hmono' j)
      · rw [hsum', hsum]; simp; omega
      · refine List.Forall₂.cons ⟨rfl, hi_caps, hdivcur i, le_refl _,
          hgetD_i ▸ hmono' i, hcap⟩ ?_
        refine hfa'.imp ?_
        intro a b hab
        exact ⟨hab.1, hab.2.1, hab.2.2.1, le_trans (hmonoFit b.2.1) hab.2.2.2.1,
          hab.2.2.2.2.1, hab.2.2.2.2.2⟩
      · refine List.Pairwise.cons ?_ hpw'
        intro q hq hbin
        obtain ⟨-, hzip⟩ := List.forall₂_iff_zip.mp hfa'
        have hR := hzip hq
        have h4 := hR.2.2.2.1
        rw [← hbin] at h4
        rw [hgetD_i] at h4
        exact h4

/-- When everything fits in the first bin, the greedy placement succeeds and
touches only that bin. -/
theorem place_all_head : ∀ (ts : List (Nat × Nat)) (cap cur : Nat)
    (caps' current' : List Nat) (sol : List (Nat × Nat × Nat)),
    cur + (ts.map Prod.fst).sum ≤ cap →
    ∃ sol', place_all (cap :: caps') ts (cur :: current') sol =
      some ((cur + (ts.map Prod.fst).sum) :: current', sol') := by
  intro ts
  induction ts with
  | nil =>
    intro cap cur caps' current' sol _
    exact ⟨sol, by rw [place_all]; simp⟩
  | cons t rest ih =>
    intro cap cur caps' current' sol h
    obtain ⟨sz, id⟩ := t
    simp only [List.map_cons, List.sum_cons] at h
    have hfit : cur + sz ≤ cap := by omega
    have hf : first_fit (cap :: caps') (cur :: current') sz =
        some (0, (cur + sz) :: current') := by
      rw [first_fit, if_pos hfit]
    obtain ⟨sol', hsol'⟩ := ih cap (cur + sz) caps' current'
      (sol ++ [(id, 0, (cur + sz) - sz)]) (by omega)
    refine ⟨sol', ?_⟩
    rw [place_all, hf]
    have hgoal : place_all (cap :: caps') rest ((cur + sz) :: current')
        (sol ++ [(id, 0, ((cur + sz) :: current').getD 0 0 - sz)]) =
        some ((cur + sz + (rest.map Prod.fst).sum) :: current', sol') := hsol'
    simp only [List.map_cons, List.sum_cons, ← Nat.add_assoc]
    exact hgoal

/-- One counter step keeps every level at zero or its configured size,
except from the fully loaded state. -/
theorem bins_step_inv (size bins : Bins4) (hinv : bins_inv size bins)
    (hne : ¬(bins.b0 = size.b0 ∧ bins.b1 = size.b1 ∧ bins.b2 = size.b2 ∧
      bins.b3 = size.b3 ∧ 0 < size.b0 ∧ 0 < size.b1 ∧ 0 < size.b2 ∧ 0 < size.b3)) :
    bins_inv size (bins_step bins size) := by
  obtain ⟨b0, b1, b2, b3⟩ := bins
  obtain ⟨s0, s1, s2, s3⟩ := size
  simp only [bins_inv, bins_step] at hinv hne ⊢
  obtain ⟨h0, h1, h2, h3⟩ := hinv
  split_ifs <;> simp_all <;> omega

/-- Under the invariant, every positive bin level is one of the four
configured sizes. -/
theorem solution_bins_mem (size bins : Bins4) (hinv : bins_inv size bins) :
    ∀ c ∈ solution_bins bins,
      0 < c ∧ (c = size.b0 ∨ c = size.b1 ∨ c = size.b2 ∨ c = size.b3) := by
  obtain ⟨b0, b1, b2, b3⟩ := bins
  obtain ⟨h0, h1, h2, h3⟩ := hinv
  intro c hc
  simp only [solution_bins, List.mem_filter, decide_eq_true_eq] at hc
  obtain ⟨hmem, hpos⟩ := hc
  refine ⟨hpos, ?_⟩
  simp only [List.mem_cons, List.mem_singleton, List.not_mem_nil] at hmem
  rcases hmem with rfl | rfl | rfl | rfl | hfalse
  · simp only at h0 h1 h2 h3 ⊢
    omega
  · simp only at h0 h1 h2 h3 ⊢
    omega
  · simp only at h0 h1 h2 h3 ⊢
    omega
  · simp only at h0 h1 h2 h3 ⊢
    omega
  · exact hfalse.elim

/-- At most four bin levels are kept. -/
theorem solution_bins_len (bins : Bins4) : (solution_bins bins).length ≤ 4 := by
  have := List.length_filter_le (fun x => decide (0 < x))
    [bins.b0, bins.b1, bins.b2, bins.b3]
  simpa [solution_bins] using this

/-- Fuelled bit length bounds its argument: `n < 2 ^ bit_length_aux fuel n`
whenever the fuel covers `n`. -/
theorem bit_length_aux_lt : ∀ (fuel n : Nat), n ≤ fuel →
    n < 2 ^ bit_length_aux fuel n := by
  intro fuel
  induction fuel with
  | zero =>
    intro n h
    interval_cases n
    simp [bit_length_aux]
  | succ fuel ih =>
    intro n h
    rw [bit_length_aux]
    by_cases hn : n = 0
    · subst hn; simp
    · rw [if_neg hn]
      have hdiv : n / 2 ≤ fuel := by omega
      have := ih (n / 2) hdiv
      rw [Nat.pow_succ]
      omega

/-- The trailing power-of-two bound: `x ≤ nearest_power_of_2 x`. -/
theorem le_nearest_power_of_2 (x : Nat) : x ≤ nearest_power_of_2 x := by
  have h := bit_length_aux_lt (x - 1) (x - 1) (le_refl _)
  rw [nearest_power_of_2, bit_length]
  omega

/-- A positive quotient of powers of two is a power of two. -/
theorem pow2_div_pow2 (m i : Nat) (h : 0 < 2 ^ m / 2 ^ i) :
    ∃ k, 2 ^ m / 2 ^ i = 2 ^ k := by
  by_cases him : i ≤ m
  · exact ⟨m - i, Nat.pow_div him (by norm_num)⟩
  · exfalso
    have hlt : (2 : Nat) ^ m < 2 ^ i :=
      Nat.pow_lt_pow_right (by norm_num) (by omega)
    rw [Nat.div_eq_of_lt hlt] at h
    exact absurd h (by omega)

/-- The bin-level search returns, when it succeeds, a set of caps drawn from
the invariant states — each level zero or its configured size — whose
positive entries sum to at least the total, together with a successful
greedy placement into those caps that uses every tensor and every cap. -/
theorem alloc_loop_spec (ts : List (Nat × Nat)) (total : Nat) (size : Bins4)
    (htot : total ≤ size.b0) (hts : (ts.map Prod.fst).sum = total) :
    ∀ (fuel : Nat) (bins : Bins4), bins_inv size bins →
    ¬(bins.b0 = size.b0 ∧ bins.b1 = size.b1 ∧ bins.b2 = size.b2 ∧
      bins.b3 = size.b3 ∧ 0 < size.b0 ∧ 0 < size.b1 ∧ 0 < size.b2 ∧ 0 < size.b3) →
    ∀ (out : List Nat × List (Nat × Nat × Nat)),
    alloc_loop ts total size fuel bins = some out →
    ∃ bins', bins_inv size bins' ∧
      total ≤ (solution_bins bins').sum ∧
      place_all (solution_bins bins') ts
        (List.replicate (solution_bins bins').length 0) [] = some out ∧
      out.2.length = ts.length ∧ out.1.all (fun x => 0 < x) = true := by
  intro fuel
  induction fuel with
  | zero => intro bins _ _ out h; exact Option.noConfusion h
  | succ fuel ih =>
    intro bins hinv hne out h
    have hinv1 : bins_inv size (bins_step bins size) := bins_step_inv size bins hinv hne
    have h' : (if (solution_bins (bins_step bins size)).sum < total then
          alloc_loop ts total size fuel (bins_step bins size)
        else
          match place_all (solution_bins (bins_step bins size)) ts
              (List.replicate (solution_bins (bins_step bins size)).length 0) [] with
          | some (current, sol) =>
            if sol.length = ts.length ∧ current.all (fun x => 0 < x) then
              some (current, sol)
            else none
          | none => alloc_loop ts total size fuel (bins_step bins size)) = some out := h
    by_cases hlt : (solution_bins (bins_step bins size)).sum < total
    · rw [if_pos hlt] at h'
      have hne1 : ¬((bins_step bins size).b0 = size.b0 ∧
          (bins_step bins size).b1 = size.b1 ∧ (bins_step bins size).b2 = size.b2 ∧
          (bins_step bins size).b3 = size.b3 ∧ 0 < size.b0 ∧ 0 < size.b1 ∧
          0 < size.b2 ∧ 0 < size.b3) := by
        rintro ⟨e0, e1, e2, e3, p0, p1, p2, p3⟩
        have hc : solution_bins (bins_step bins size) =
            [size.b0, size.b1, size.b2, size.b3] := by
          simp [solution_bins, e0, e1, e2, e3, p0, p1, p2, p3]
        rw [hc] at hlt
        simp only [List.sum_cons, List.sum_nil] at hlt
        omega
      exact ih (bins_step bins size) hinv1 hne1 out h'
    · rw [if_neg hlt] at h'
      cases hplace : place_all (solution_bins (bins_step bins size)) ts
          (List.replicate (solution_bins (bins_step bins size)).length 0) [] with
      | none =>
        rw [hplace] at h'
        have h'' : alloc_loop ts total size fuel (bins_step bins size) = some out := h'
        have hne1 : ¬((bins_step bins size).b0 = size.b0 ∧
            (bins_step bins size).b1 = size.b1 ∧ (bins_step bins size).b2 = size.b2 ∧
            (bins_step bins size).b3 = size.b3 ∧ 0 < size.b0 ∧ 0 < size.b1 ∧
            0 < size.b2 ∧ 0 < size.b3) := by
          rintro ⟨e0, e1, e2, e3, p0, p1, p2, p3⟩
          have hc : solution_bins (bins_step bins size) =
              [size.b0, size.b1, size.b2, size.b3] := by
            simp [solution_bins, e0, e1, e2, e3, p0, p1, p2, p3]
          obtain ⟨sol', hsucc⟩ := place_all_head ts size.b0 0
            [size.b1, size.b2, size.b3] [0, 0, 0] [] (by rw [hts]; omega)
          rw [hc] at hplace
          rw [show List.replicate ((([size.b0, size.b1, size.b2, size.b3] :
            List Nat)).length) 0 = ([0, 0, 0, 0] : List Nat) from rfl] at hplace
          rw [hsucc] at hplace
          exact Option.noConfusion hplace
        exact ih (bins_step bins size) hinv1 hne1 out h''
      | some r =>
        obtain ⟨current, sol⟩ := r
        rw [hplace] at h'
        have h'' : (if sol.length = ts.length ∧ current.all (fun x => 0 < x) then
            some ((current, sol) : List Nat × List (Nat × Nat × Nat))
          else none) = some out := h'
        by_cases hacc : sol.length = ts.length ∧ current.all (fun x => 0 < x)
        · rw [if_pos hacc, Option.some.injEq] at h''
          subst h''
          exact ⟨bins_step bins size, hinv1, by omega, hplace, hacc.1, hacc.2⟩
        · rw [if_neg hacc] at h''
          exact Option.noConfusion h''

/-- The packed-size fold multiplies the visited shape factors (the guard
checks the stride chain but does not change the product). -/
theorem foldlM_guard_prod : ∀ (l : List (Nat × Nat)) (acc s : Nat),
    List.foldlM (fun size p => if size = p.2 then some (size * p.1) else none) acc l
      = some s →
    s = acc * (l.map Prod.fst).prod := by
  intro l
  induction l with
  | nil =>
    intro acc s h
    rw [List.foldlM_nil] at h
    have hs : acc = s := by simpa using h
    simp [← hs]
  | cons p rest ih =>
    intro acc s h
    rw [List.foldlM_cons] at h
    by_cases hc : acc = p.2
    · rw [if_pos hc] at h
      have h' : List.foldlM (fun size p => if size = p.2 then some (size * p.1)
          else none) (acc * p.1) rest = some s := h
      rw [ih (acc * p.1) s h']
      simp [Nat.mul_assoc]
    · rw [if_neg hc] at h
      exact Option.noConfusion h

/-- Dropping unit dimensions does not change the shape product. -/
theorem prod_filter_ne_one : ∀ l : List (Nat × Nat),
    ((l.filter (fun p => p.1 ≠ 1)).map Prod.fst).prod = (l.map Prod.fst).prod := by
  intro l
  induction l with
  | nil => rfl
  | cons p rest ih =>
    rw [List.filter_cons]
    by_cases hp : p.1 = 1
    · rw [if_neg (by simp [hp])]
      rw [ih]
      simp [hp]
    · rw [if_pos (by simp [hp])]
      simp only [List.map_cons, List.prod_cons]
      rw [ih]

/-- Claim helper: a successful `size_of_tensor` is the element count rounded
up to the 64 alignment. -/
theorem size_of_tensor_roundup (shape stride : List Nat) (s : Nat)
    (hlen : shape.length = stride.length)
    (h : size_of_tensor shape stride = some s) :
    s = (shape.prod + 63) / 64 * 64 := by
  rw [size_of_tensor] at h
  have h' : (List.foldlM (fun size p => if size = p.2 then some (size * p.1)
      else none) 1 (((shape.zip stride).filter (fun p => p.1 ≠ 1)).insertionSort
        (fun a b => a.2 < b.2))).bind
      (fun size => some ((size + (64 - 1)) / 64 * 64)) = some s := h
  cases hf : List.foldlM (fun size p => if size = p.2 then some (size * p.1)
      else none) 1 (((shape.zip stride).filter (fun p => p.1 ≠ 1)).insertionSort
        (fun a b => a.2 < b.2)) with
  | none =>
    rw [hf] at h'
    exact Option.noConfusion h'
  | some sz =>
    rw [hf] at h'
    have h'' : (sz + (64 - 1)) / 64 * 64 = s := by simpa using h'
    have hsz := foldlM_guard_prod _ 1 sz hf
    have hperm := List.perm_insertionSort (fun a b : Nat × Nat => a.2 < b.2)
      ((shape.zip stride).filter (fun p => p.1 ≠ 1))
    have hprod : ((((shape.zip stride).filter (fun p => p.1 ≠ 1)).insertionSort
        (fun a b => a.2 < b.2)).map Prod.fst).prod =
        ((shape.zip stride).map Prod.fst).prod := by
      rw [(hperm.map Prod.fst).prod_eq]
      exact prod_filter_ne_one (shape.zip stride)
    have hzip : (shape.zip stride).map Prod.fst = shape :=
      List.map_fst_zip shape stride (le_of_eq hlen)
    rw [hsz, hprod, hzip, Nat.one_mul] at h''
    omega

/-- With unique ids, the recorded size of a listed tensor is looked up
correctly. -/
theorem sizeOfId_eq (tensors : List (Nat × Nat)) (t : Nat × Nat)
    (hids : (tensors.map Prod.snd).Nodup) (ht : t ∈ tensors) :
    sizeOfId tensors t.2 = t.1 := by
  rw [sizeOfId]
  cases hf : tensors.find? (fun x => x.2 = t.2) with
  | none =>
    exfalso
    have := List.find?_eq_none.mp hf t ht
    simp at this
  | some f =>
    have hft : f.2 = t.2 := by simpa using List.find?_some hf
    have hfm : f ∈ tensors := List.mem_of_find?_eq_some hf
    have hinj : f = t := List.inj_on_of_nodup_map hids hfm ht hft
    rw [hinj]
    rfl

/-- A `Forall₂` whose relation fixes the recorded id maps the solution ids
onto the tensor ids. -/
theorem forall2_ids_map {R : (Nat × Nat) → (Nat × Nat × Nat) → Prop}
    (hR : ∀ a b, R a b → b.1 = a.2) :
    ∀ {l1 : List (Nat × Nat)} {l2 : List (Nat × Nat × Nat)},
    List.Forall₂ R l1 l2 → l2.map (fun e => e.1) = l1.map Prod.snd := by
  intro l1 l2 h
  induction h with
  | nil => rfl
  | cons hab htail ih => simp [hR _ _ hab, ih]

/-- Each right element of a `Forall₂` is relate to some left element. -/
theorem forall2_mem_right {α β : Type _} {R : α → β → Prop} :
    ∀ {l1 : List α} {l2 : List β}, List.Forall₂ R l1 l2 →
    ∀ b ∈ l2, ∃ a ∈ l1, R a b := by
  intro l1 l2 h
  induction h with
  | nil => intro b hb; exact absurd hb (List.not_mem_nil b)
  | cons hab htail ih =>
    intro b hb
    rcases List.mem_cons.mp hb with rfl | hb
    · exact ⟨_, List.mem_cons_self _ _, hab⟩
    · obtain ⟨a, ha, hR⟩ := ih b hb
      exact ⟨a, List.mem_cons_of_mem _ ha, hR⟩

/-- Python list getD on a zero-replicate. -/
theorem replicate_getD : ∀ (n j : Nat), (List.replicate n (0 : Nat)).getD j 0 = 0 := by
  intro n
  induction n with
  | zero => intro j; rfl
  | succ n ih =>
    intro j
    cases j with
    | zero => rfl
    | succ j => exact ih j

/-- Claim C3 (amended): for `(size, id)` tensors with positive, 64-aligned
sizes and distinct ids, a successful `allocate_offset` packs every tensor
into one of at most 4 bins with 64-aligned offsets, in-bin ranges laid out
without overlap below the bin's allocated capacity (its occupied span); the
spans sum exactly to the naive total and are bounded pointwise by at most 4
power-of-two search caps whose sum covers the total; and a successful
`size_of_tensor` is the element count rounded up to a multiple of 64. -/
theorem allocate_offset_packing (tensors : List (Nat × Nat)) (fuel : Nat)
    (bins : List Nat) (sol : List (Nat × Nat × Nat))
    (hsz : ∀ t ∈ tensors, 0 < t.1 ∧ 64 ∣ t.1)
    (hids : (tensors.map Prod.snd).Nodup)
    (h : allocate_offset tensors fuel = some (bins, sol)) :
    bins.length ≤ 4 ∧
    sol.length = tensors.length ∧
    (sol.map (fun e => e.1)).Perm (tensors.map Prod.snd) ∧
    (∀ e ∈ sol, e.2.1 < bins.length ∧ 64 ∣ e.2.2 ∧ 0 < sizeOfId tensors e.1 ∧
      e.2.2 + sizeOfId tensors e.1 ≤ bins.getD e.2.1 0) ∧
    sol.Pairwise (fun p q => p.2.1 = q.2.1 →
      p.2.2 + sizeOfId tensors p.1 ≤ q.2.2 ∨ q.2.2 + sizeOfId tensors q.1 ≤ p.2.2) ∧
    bins.sum = (tensors.map Prod.fst).sum ∧
    (∀ b ∈ bins, 0 < b) ∧
    (∃ caps : List Nat, caps.length ≤ 4 ∧ (∀ c ∈ caps, ∃ k, c = 2 ^ k) ∧
      bins.length = caps.length ∧ (∀ j, bins.getD j 0 ≤ caps.getD j 0) ∧
      (tensors.map Prod.fst).sum ≤ caps.sum) ∧
    (∀ (shape stride : List Nat) (s : Nat), shape.length = stride.length →
      size_of_tensor shape stride = some s → s = (shape.prod + 63) / 64 * 64) := by
  have h' : alloc_loop (tensors.insertionSort (fun a b => b.1 < a.1))
      ((tensors.map Prod.fst).sum)
      ⟨nearest_power_of_2 ((tensors.map Prod.fst).sum) / 2 ^ 0,
       nearest_power_of_2 ((tensors.map Prod.fst).sum) / 2 ^ 1,
       nearest_power_of_2 ((tensors.map Prod.fst).sum) / 2 ^ 2,
       nearest_power_of_2 ((tensors.map Prod.fst).sum) / 2 ^ 3⟩
      fuel ⟨0, 0, 0, 0⟩ = some (bins, sol) := h
  have hperm_sorted :=
    List.perm_insertionSort (fun a b : Nat × Nat => b.1 < a.1) tensors
  have hts : ((tensors.insertionSort (fun a b => b.1 < a.1)).map Prod.fst).sum =
      (tensors.map Prod.fst).sum := (hperm_sorted.map Prod.fst).sum_eq
  have htot : (tensors.map Prod.fst).sum ≤
      nearest_power_of_2 ((tensors.map Prod.fst).sum) / 2 ^ 0 := by
    have := le_nearest_power_of_2 ((tensors.map Prod.fst).sum)
    simpa using this
  obtain ⟨bins', hinv', hsum_caps, hplace, hlen_sol, hall_pos⟩ :=
    alloc_loop_spec (tensors.insertionSort (fun a b => b.1 < a.1))
      ((tensors.map Prod.fst).sum) _ htot hts fuel ⟨0, 0, 0, 0⟩
      ⟨Or.inl rfl, Or.inl rfl, Or.inl rfl, Or.inl rfl⟩
      (by
        rintro ⟨e0, -, -, -, p0, -, -, -⟩
        rw [← e0] at p0
        exact absurd p0 (by simp))
      (bins, sol) h'
  have hdiv_sorted : ∀ t ∈ tensors.insertionSort (fun a b => b.1 < a.1), 64 ∣ t.1 :=
    fun t ht => (hsz t (hperm_sorted.mem_iff.mp ht)).2
  obtain ⟨delta, hsol_eq, hlen_bins, hmono, hle_caps, hdiv_bins, hsum_bins, hfa, hpw⟩ :=
    place_all_spec (solution_bins bins')
      (tensors.insertionSort (fun a b => b.1 < a.1))
      (List.replicate (solution_bins bins').length 0) [] (bins, sol) hplace
      hdiv_sorted
      (fun j => by rw [replicate_getD]; exact Nat.dvd_zero 64)
      (fun j => by rw [replicate_getD]; exact Nat.zero_le _)
  have hsol2 : sol = delta := by rw [← List.nil_append delta]; exact hsol_eq
  subst hsol2
  have hlen_caps : bins.length = (solution_bins bins').length := by
    simpa using hlen_bins
  refine ⟨?_, ?_, ?_, ?_, ?_, ?_, ?_, ?_, ?_⟩
  · rw [hlen_caps]
    exact solution_bins_len bins'
  · exact hlen_sol.trans hperm_sorted.length_eq
  · have hmapeq : sol.map (fun e => e.1) =
        (tensors.insertionSort (fun a b => b.1 < a.1)).map Prod.snd :=
      forall2_ids_map (fun a b hab => hab.1) hfa
    rw [hmapeq]
    exact hperm_sorted.map Prod.snd
  · intro e he
    obtain ⟨t, htmem, hR⟩ := forall2_mem_right hfa e he
    have htt : t ∈ tensors := hperm_sorted.mem_iff.mp htmem
    have hsid : sizeOfId tensors e.1 = t.1 := by
      rw [hR.1]
      exact sizeOfId_eq tensors t hids htt
    refine ⟨?_, hR.2.2.1, ?_, ?_⟩
    · rw [hlen_caps]
      exact hR.2.1
    · rw [hsid]
      exact (hsz t htt).1
    · rw [hsid]
      exact hR.2.2.2.2.1
  · obtain ⟨hlen2, hzipR⟩ := List.forall₂_iff_zip.mp hfa
    have hpw2 : ((tensors.insertionSort (fun a b => b.1 < a.1)).zip sol).Pairwise
        (fun p q => p.2.2.1 = q.2.2.1 →
          p.2.2.2 + sizeOfId tensors p.2.1 ≤ q.2.2.2) := by
      refine hpw.imp_of_mem ?_
      intro p q hp hq hRpq heq
      have hpmem := (List.of_mem_zip hp).1
      have hid_p : p.2.1 = p.1.2 := (hzipR hp).1
      have hsid : sizeOfId tensors p.2.1 = p.1.1 := by
        rw [hid_p]
        exact sizeOfId_eq tensors p.1 hids (hperm_sorted.mem_iff.mp hpmem)
      rw [hsid]
      exact hRpq heq
    have hmapsnd : ((tensors.insertionSort (fun a b => b.1 < a.1)).zip sol).map
        Prod.snd = sol :=
      List.map_snd_zip _ _ (le_of_eq hlen2.symm)
    have hpw3 : sol.Pairwise (fun e f => e.2.1 = f.2.1 →
        e.2.2 + sizeOfId tensors e.1 ≤ f.2.2) := by
      rw [← hmapsnd]
      exact hpw2.map Prod.snd (fun a b hab => hab)
    exact hpw3.imp (fun hab heq => Or.inl (hab heq))
  · have hb : bins.sum =
        ((tensors.insertionSort (fun a b => b.1 < a.1)).map Prod.fst).sum := by
      simpa using hsum_bins
    rw [hb, hts]
  · intro b hb
    simpa using List.all_eq_true.mp hall_pos b hb
  · refine ⟨solution_bins bins', solution_bins_len bins', ?_, hlen_caps,
      hle_caps, hsum_caps⟩
    intro c hc
    obtain ⟨hcpos, hcases⟩ := solution_bins_mem _ bins' hinv' c hc
    rcases hcases with hh | hh | hh | hh <;> subst hh
    · exact pow2_div_pow2 (bit_length ((tensors.map Prod.fst).sum - 1)) 0 hcpos
    · exact pow2_div_pow2 (bit_length ((tensors.map Prod.fst).sum - 1)) 1 hcpos
    · exact pow2_div_pow2 (bit_length ((tensors.map Prod.fst).sum - 1)) 2 hcpos
    · exact pow2_div_pow2 (bit_length ((tensors.map Prod.fst).sum - 1)) 3 hcpos
  · exact fun shape stride s h1 h2 => size_of_tensor_roundup shape stride s h1 h2

set_option maxRecDepth 10000 in
/-- Witness for the amended C3 at two tensors of 64 and 128 elements: the
returned spans are `[128, 64]` with the 128-element tensor at offset 0 of
bin 0 and the 64-element tensor at offset 0 of bin 1. -/
theorem allocate_offset_packing_witness :
    ([128, 64] : List Nat).length ≤ 4 ∧
    ([(1, 0, 0), (0, 1, 0)] : List (Nat × Nat × Nat)).length =
      ([(64, 0), (128, 1)] : List (Nat × Nat)).length ∧
    (([(1, 0, 0), (0, 1, 0)] : List (Nat × Nat × Nat)).map (fun e => e.1)).Perm
      (([(64, 0), (128, 1)] : List (Nat × Nat)).map Prod.snd) ∧
    (∀ e ∈ ([(1, 0, 0), (0, 1, 0)] : List (Nat × Nat × Nat)),
      e.2.1 < ([128, 64] : List Nat).length ∧ 64 ∣ e.2.2 ∧
      0 < sizeOfId [(64, 0), (128, 1)] e.1 ∧
      e.2.2 + sizeOfId [(64, 0), (128, 1)] e.1 ≤ ([128, 64] : List Nat).getD e.2.1 0) ∧
    ([(1, 0, 0), (0, 1, 0)] : List (Nat × Nat × Nat)).Pairwise (fun p q =>
      p.2.1 = q.2.1 →
      p.2.2 + sizeOfId [(64, 0), (128, 1)] p.1 ≤ q.2.2 ∨
      q.2.2 + sizeOfId [(64, 0), (128, 1)] q.1 ≤ p.2.2) ∧
    ([128, 64] : List Nat).sum =
      (([(64, 0), (128, 1)] : List (Nat × Nat)).map Prod.fst).sum ∧
    (∀ b ∈ ([128, 64] : List Nat), 0 < b) ∧
    (∃ caps : List Nat, caps.length ≤ 4 ∧ (∀ c ∈ caps, ∃ k, c = 2 ^ k) ∧
      ([128, 64] : List Nat).length = caps.length ∧
      (∀ j, ([128, 64] : List Nat).getD j 0 ≤ caps.getD j 0) ∧
      (([(64, 0), (128, 1)] : List (Nat × Nat)).map Prod.fst).sum ≤ caps.sum) ∧
    (∀ (shape stride : List Nat) (s : Nat), shape.length = stride.length →
      size_of_tensor shape stride = some s → s = (shape.prod + 63) / 64 * 64) :=
  allocate_offset_packing [(64, 0), (128, 1)] 64 [128, 64] [(1, 0, 0), (0, 1, 0)]
    (by decide) (by decide) (by decide)

end ZeroBubble
